import Mathlib

/-!
Verification development for the peekafood meal-analysis pipeline.

The TypeScript source (the `getCalorieBreakdown` server action and its
helpers) is embedded shallowly: pure text transformations become functions
on `List Char` / `String`, the non-deterministic generative-model
collaborator becomes an oracle `Nat → CallResult` consumed call by call,
thrown exceptions become `Except` values, and `JSON.parse` is modelled by
an executable JSON reader producing a dynamic value that is then coerced
to the typed `CalorieBreakdownResponse` record exactly where the source
casts the parsed value.
-/

/-! ### Character and string helpers (JS `trim`, `toLowerCase`, suffix test) -/

/-- The backtick character, written via its code point. -/
def backtick : Char := Char.ofNat 96

/-- Whitespace as matched by the JS `\s` class and `String.prototype.trim`
(restricted to the ASCII range used by this code base). -/
def jsWsChar (c : Char) : Bool :=
  c = ' ' || c = '\t' || c = '\n' || c = '\r' || c = Char.ofNat 11 || c = Char.ofNat 12

/-- Drop leading JS whitespace. -/
def trimLeftL (l : List Char) : List Char := l.dropWhile jsWsChar

/-- Drop trailing JS whitespace. -/
def trimRightL (l : List Char) : List Char := (l.reverse.dropWhile jsWsChar).reverse

/-- JS `String.prototype.trim`. -/
def jsTrim (s : String) : String := String.mk (trimLeftL (trimRightL s.data))

/-- JS `String.prototype.toLowerCase` (ASCII fragment). -/
def jsLower (s : String) : String := String.mk (s.data.map Char.toLower)

/-- The string `s` ends with the text `suffix` (byte-for-byte). -/
def endsWithText (s suffix : String) : Prop := suffix.data <:+ s.data

instance (s suffix : String) : Decidable (endsWithText s suffix) :=
  inferInstanceAs (Decidable (suffix.data <:+ s.data))

/-! ### Data model: `FoodItem` and `CalorieBreakdownResponse`

Fields are `Option`-valued because the JS objects come from `JSON.parse`
and any property may be absent (`undefined`). -/

structure FoodItem where
  itemName : Option String
  quantity : Option String
  calories : Option Rat
  protein_g : Option Rat
  carbs_g : Option Rat
  fat_g : Option Rat
deriving DecidableEq, Inhabited

structure CalorieBreakdownResponse where
  mealDescription : Option String
  totalEstimatedCalories : Option Rat
  items : Option (List FoodItem)
  confidenceScore : Option Rat
  assumptionsMade : Option String
  error : Option String
deriving DecidableEq, Inhabited

/-! ### The deterministic fallback reducer (`findConsensusResultFallback`)

The source keys a `Map` by `JSON.stringify` of a simplified view of each
candidate (meal description, total calories, item name/calorie pairs).
`JSON.stringify` is injective on that view, so the key is modelled as the
simplified view itself. -/

/-- The simplified view `JSON.stringify` serializes for the frequency-count
key. `JSON.stringify` is injective on this view, so equality of keys is
equality of views. -/
structure SimplifiedSig where
  mealDescription : Option String
  totalEstimatedCalories : Option Rat
  items : Option (List (Option String × Option Rat))
deriving DecidableEq

/-- The normalized signature used as the frequency-count key:
`{mealDescription, totalEstimatedCalories, items?.map(i => ({itemName, calories}))}`. -/
def simplifiedSig (r : CalorieBreakdownResponse) : SimplifiedSig :=
  { mealDescription := r.mealDescription,
    totalEstimatedCalories := r.totalEstimatedCalories,
    items := r.items.map (fun its => its.map (fun i => (i.itemName, i.calories))) }

/-- The text appended to `assumptionsMade` by the fallback reducer:
` (Based on consensus from k/n analyses)`. -/
def consensusNote (k n : Nat) : String :=
  " (Based on consensus from " ++ Nat.repr k ++ "/" ++ Nat.repr n ++ " analyses)"

/-- The reducer's final mutation: append the consensus note to the winner's
`assumptionsMade` (absent treated as `''`), then JS-`trim` the result. -/
def addNote (w : CalorieBreakdownResponse) (k n : Nat) : CalorieBreakdownResponse :=
  { w with assumptionsMade := some (jsTrim ((w.assumptionsMade.getD "") ++ consensusNote k n)) }

/-- One step of the occurrence count: `Map.get(key).count++` if the key is
present, else `Map.set(key, {count: 1, result})` (insertion order kept). -/
def bumpCount :
    List (SimplifiedSig × Nat × CalorieBreakdownResponse) →
    CalorieBreakdownResponse →
    List (SimplifiedSig × Nat × CalorieBreakdownResponse)
  | [], r => [(simplifiedSig r, 1, r)]
  | (s, c, w) :: rest, r =>
    if simplifiedSig r = s then (s, c + 1, w) :: rest else (s, c, w) :: bumpCount rest r

/-- The `resultCounts` map of the source, as an insertion-ordered list. -/
def resultCounts (results : List CalorieBreakdownResponse) :
    List (SimplifiedSig × Nat × CalorieBreakdownResponse) :=
  results.foldl bumpCount []

/-- The `count > maxCount` loop over the map entries. -/
def pickMax :
    List (SimplifiedSig × Nat × CalorieBreakdownResponse) →
    Nat × CalorieBreakdownResponse → Nat × CalorieBreakdownResponse
  | [], acc => acc
  | (_, c, w) :: rest, acc => pickMax rest (if c > acc.1 then (c, w) else acc)

/-- The `confidence > highestConfidence` tie-break loop (`|| 0` becomes `getD 0`). -/
def pickConf : List CalorieBreakdownResponse →
    Rat × CalorieBreakdownResponse → Rat × CalorieBreakdownResponse
  | [], acc => acc
  | r :: rest, acc =>
    pickConf rest
      (if r.confidenceScore.getD 0 > acc.1 then (r.confidenceScore.getD 0, r) else acc)

/-- The deterministic consensus fallback of the source: frequency count on
signatures, first-seen max wins; if the max bucket has size 1, re-pick by
highest confidence score; finally append the consensus note. -/
def findConsensusResultFallback (results : List CalorieBreakdownResponse) :
    CalorieBreakdownResponse :=
  let counts := resultCounts results
  let m := pickMax counts (0, results.headD default)
  let w := if m.1 = 1 then (pickConf results (0, m.2)).2 else m.2
  addNote w m.1 results.length

/-! ### The syntactic repair of `processGeminiResponse`

Each `replace(/.../g, ...)` of the source is a concrete regex; each is
modelled as a left-to-right scan with an explicit matcher implementing
exactly that pattern's backtracking behaviour at one position. A successful
match yields the replacement text and the remainder after the match; the
scan emits the replacement and continues after it (JS `g`-flag semantics:
the replacement is not rescanned). -/

/-- The delimiter class `[:,{[\]}]` of the interleaved-text regex. -/
def isDelimD (c : Char) : Bool :=
  c = ',' || c = ':' || c = '{' || c = '[' || c = ']' || c = '}'

/-- Split at the first double quote: `some (before, after)` with
`l = before ++ '"' :: after` and no quote in `before`. -/
def splitAtQuote : List Char → Option (List Char × List Char)
  | [] => none
  | c :: rest =>
    if c = '"' then some ([], rest)
    else match splitAtQuote rest with
      | some (a, b) => some (c :: a, b)
      | none => none

/-- Matcher for `/```json\s*/` at the current position (replacement `''`). -/
def matcherA : List Char → Option (List Char × List Char)
  | [] => none
  | c1 :: rest1 =>
    if c1 = backtick then
      match rest1 with
      | c2 :: c3 :: c4 :: c5 :: c6 :: c7 :: rest =>
        if c2 = backtick ∧ c3 = backtick ∧ c4 = 'j' ∧ c5 = 's' ∧ c6 = 'o' ∧ c7 = 'n'
        then some ([], rest.dropWhile jsWsChar) else none
      | _ => none
    else none

/-- Matcher for `/```\s*$/` at the current position (replacement `''`):
matches only when everything after the fence is whitespace up to the end. -/
def matcherB : List Char → Option (List Char × List Char)
  | [] => none
  | c1 :: rest1 =>
    if c1 = backtick then
      match rest1 with
      | c2 :: c3 :: rest =>
        if c2 = backtick ∧ c3 = backtick ∧ rest.all jsWsChar
        then some ([], []) else none
      | _ => none
    else none

/-- Matcher for the interleaved-text regex
`/("[^"]*")\s*[^,:{\[\]\}]+([:,\{\[\]\}])/` (replacement `'$1$2'`).
A match needs a quoted span, then at least one character that is not a
delimiter, then a delimiter; the `\s*` is subsumed because whitespace is
itself not a delimiter. -/
def matcherD : List Char → Option (List Char × List Char)
  | [] => none
  | c :: rest =>
    if c = '"' then
      match splitAtQuote rest with
      | none => none
      | some (content, after) =>
        match after.takeWhile (fun d => !(isDelimD d)), after.dropWhile (fun d => !(isDelimD d)) with
        | [], _ => none
        | _ :: _, [] => none
        | _ :: _, d :: tl => some ('"' :: content ++ '"' :: [d], tl)
    else none

/-- Matcher for the first missing-value patch
`/"([^"]+)",(\s*[\},\]])/` (replacement `'"$1": 0,$2'`). -/
def matcherE : List Char → Option (List Char × List Char)
  | [] => none
  | c :: rest =>
    if c = '"' then
      match splitAtQuote rest with
      | none => none
      | some ([], _) => none
      | some (c0 :: content, after) =>
        match after with
        | ',' :: after2 =>
          match after2.takeWhile jsWsChar, after2.dropWhile jsWsChar with
          | _, [] => none
          | wsp, d :: tl =>
            if d = '}' ∨ d = ',' ∨ d = ']'
            then some ('"' :: (c0 :: content) ++ ('"' :: ':' :: ' ' :: '0' :: ',' :: wsp) ++ [d], tl)
            else none
        | _ => none
    else none

/-- Matcher for the second missing-value patch
`/"([^"]+)",(\s*")/` (replacement `'"$1": 0,$2'`). -/
def matcherF : List Char → Option (List Char × List Char)
  | [] => none
  | c :: rest =>
    if c = '"' then
      match splitAtQuote rest with
      | none => none
      | some ([], _) => none
      | some (c0 :: content, after) =>
        match after with
        | ',' :: after2 =>
          match after2.takeWhile jsWsChar, after2.dropWhile jsWsChar with
          | _, [] => none
          | wsp, d :: tl =>
            if d = '"'
            then some ('"' :: (c0 :: content) ++ ('"' :: ':' :: ' ' :: '0' :: ',' :: wsp) ++ [d], tl)
            else none
        | _ => none
    else none

/-- Matcher for the trailing-comma cleanup `/,(\s*[\}\]])/` (replacement `'$1'`). -/
def matcherG : List Char → Option (List Char × List Char)
  | [] => none
  | c :: rest =>
    if c = ',' then
      match rest.takeWhile jsWsChar, rest.dropWhile jsWsChar with
      | _, [] => none
      | wsp, d :: tl =>
        if d = '}' ∨ d = ']' then some (wsp ++ [d], tl) else none
    else none

/-- The six global-replace passes, as one tag per regex. -/
inductive RTag | ta | tb | td | te | tf | tg
deriving DecidableEq

/-- Dispatch a tag to its matcher. -/
def matcherOf : RTag → List Char → Option (List Char × List Char)
  | .ta => matcherA
  | .tb => matcherB
  | .td => matcherD
  | .te => matcherE
  | .tf => matcherF
  | .tg => matcherG

/-- Fuelled left-to-right global-replace scan. Every successful match
consumes at least one character, so fuel `l.length + 1` never runs out. -/
def goScan (t : RTag) : Nat → List Char → List Char
  | 0, l => l
  | _ + 1, [] => []
  | fuel + 1, c :: cs =>
    match matcherOf t (c :: cs) with
    | some (rep, rest) => rep ++ goScan t fuel rest
    | none => c :: goScan t fuel cs

/-- One full global-replace pass over a character list. -/
def runRepl (t : RTag) (l : List Char) : List Char := goScan t (l.length + 1) l

/-- The brace extraction `cleanedResponse.match(/\{[\s\S]*\}/)`: if the text
has a `{` with a `}` strictly after it, the greedy match runs from the first
such `{` to the last `}` of the whole text and replaces the text; otherwise
the text is unchanged. -/
def extractBraces (l : List Char) : List Char :=
  match l.findIdx? (fun c => c = '{'), l.reverse.findIdx? (fun c => c = '}') with
  | some i, some jr =>
    let j := l.length - 1 - jr
    if i < j then (l.drop i).take (j - i + 1) else l
  | _, _ => l

/-- The cleanup steps of `processGeminiResponse` minus the final
trailing-comma pass: fence stripping, brace extraction, interleaved-text
removal, and the two missing-value patches, in source order. -/
def cleanupPreTrailing (s : String) : String :=
  String.mk (runRepl .tf (runRepl .te (runRepl .td
    (extractBraces (runRepl .tb (runRepl .ta s.data))))))

/-- All cleanup steps of `processGeminiResponse`, in source order. -/
def cleanup (s : String) : String :=
  String.mk (runRepl .tg (cleanupPreTrailing s).data)

/-- The lighter cleaning inside `validateJsonFormat`: fence stripping and
brace extraction only. -/
def extractJson (s : String) : String :=
  String.mk (extractBraces (runRepl .tb (runRepl .ta s.data)))

/-- No position of the text matches the given regex (stepping one character
at a time, as the global-replace scan does). -/
def NoMatchP (t : RTag) : List Char → Prop
  | [] => True
  | c :: cs => matcherOf t (c :: cs) = none ∧ NoMatchP t cs

/-- A minified single-key JSON object text `{"k":ds}`. -/
def objText (k ds : List Char) : List Char :=
  '{' :: '"' :: (k ++ ('"' :: ':' :: (ds ++ ['}'])))

/-! ### `JSON.parse` as an executable reader

`Jv` is the dynamic value a parse yields; the reader follows the JSON
grammar (strict: no trailing commas, string escapes, one value plus
whitespace). A parse failure models the thrown `SyntaxError`. Numbers are
read into `Rat`. -/

inductive Jv
  | null
  | bool (b : Bool)
  | num (q : Rat)
  | str (s : String)
  | arr (xs : List Jv)
  | obj (fields : List (String × Jv))

/-- JSON grammar whitespace. -/
def jsonWs (c : Char) : Bool := c = ' ' || c = '\t' || c = '\n' || c = '\r'

/-- Skip JSON whitespace. -/
def skipWs (l : List Char) : List Char := l.dropWhile jsonWs

/-- Read a hexadecimal digit. -/
def hexVal (c : Char) : Option Nat :=
  if c.isDigit then some (c.toNat - 48)
  else if 'a' ≤ c ∧ c ≤ 'f' then some (c.toNat - 87)
  else if 'A' ≤ c ∧ c ≤ 'F' then some (c.toNat - 55)
  else none

/-- Read the body of a JSON string after the opening quote. -/
def parseJStr : Nat → List Char → Option (List Char × List Char)
  | 0, _ => none
  | _ + 1, [] => none
  | fuel + 1, c :: rest =>
    if c = '"' then some ([], rest)
    else if c = '\\' then
      match rest with
      | [] => none
      | e :: rest2 =>
        let dec : Option (Char × List Char) :=
          if e = '"' then some ('"', rest2)
          else if e = '\\' then some ('\\', rest2)
          else if e = '/' then some ('/', rest2)
          else if e = 'b' then some (Char.ofNat 8, rest2)
          else if e = 'f' then some (Char.ofNat 12, rest2)
          else if e = 'n' then some ('\n', rest2)
          else if e = 'r' then some ('\r', rest2)
          else if e = 't' then some ('\t', rest2)
          else if e = 'u' then
            match rest2 with
            | h1 :: h2 :: h3 :: h4 :: rest3 =>
              match hexVal h1, hexVal h2, hexVal h3, hexVal h4 with
              | some a, some b, some c2, some d2 =>
                some (Char.ofNat (((a * 16 + b) * 16 + c2) * 16 + d2), rest3)
              | _, _, _, _ => none
            | _ => none
          else none
        match dec with
        | some (ch, rest3) =>
          match parseJStr fuel rest3 with
          | some (s, r) => some (ch :: s, r)
          | none => none
        | none => none
    else if c.toNat < 32 then none
    else
      match parseJStr fuel rest with
      | some (s, r) => some (c :: s, r)
      | none => none

/-- Digits at the front of the input, as value and count. -/
def readDigits : List Char → Nat × Nat × List Char :=
  fun l =>
    match l with
    | [] => (0, 0, [])
    | c :: rest =>
      if c.isDigit then
        let r := readDigits rest
        (r.1 + (c.toNat - 48) * 10 ^ r.2.1, r.2.1 + 1, r.2.2)
      else (0, 0, l)

/-- The value sign·(iv + fv/10^fc)·10^(esgn·ev) of a parsed number. An
integer with a non-negative exponent is computed in `Nat` and cast, so that
parses of integer literals reduce inside the kernel; the general branch is
the same rational by the usual field laws. -/
def jnumVal (neg : Bool) (iv fv fc : Nat) (esgn : Int) (ev : Nat) : Rat :=
  let mag : Rat :=
    if fc = 0 ∧ 0 ≤ esgn then ((iv * 10 ^ (esgn.toNat * ev) : Nat) : Rat)
    else ((iv : Rat) + (fv : Rat) / (10 : Rat) ^ fc) * (10 : Rat) ^ (esgn * (ev : Int))
  if neg then -mag else mag

/-- Read a JSON number (sign, integer part without leading zeros, optional
fraction, optional exponent) as a `Rat`. -/
def parseJNum (l : List Char) : Option (Rat × List Char) :=
  let (neg, l1) : Bool × List Char :=
    match l with
    | '-' :: rest => (true, rest)
    | _ => (false, l)
  match l1 with
  | [] => none
  | c :: _ =>
    if ¬ c.isDigit then none
    else
      let (iv, ic, l2) := readDigits l1
      if ic = 0 then none
      else if 2 ≤ ic ∧ c = '0' then none
      else
        let (fv, fc, l3) :=
          match l2 with
          | '.' :: rest => readDigits rest
          | _ => (0, 0, l2)
        match l2, fc with
        | '.' :: _, 0 => none
        | _, _ =>
          match l3 with
          | 'e' :: rest | 'E' :: rest =>
            let (esgn, rest2) : Int × List Char :=
              match rest with
              | '+' :: r2 => (1, r2)
              | '-' :: r2 => (-1, r2)
              | _ => (1, rest)
            let (ev, ec, l4) := readDigits rest2
            if ec = 0 then none
            else some (jnumVal neg iv fv fc esgn ev, l4)
          | _ => some (jnumVal neg iv fv fc 1 0, l3)

mutual

/-- Read one JSON value (after skipping leading whitespace). -/
def parseJv : Nat → List Char → Option (Jv × List Char)
  | 0, _ => none
  | fuel + 1, l =>
    match skipWs l with
    | 'n' :: 'u' :: 'l' :: 'l' :: rest => some (.null, rest)
    | 't' :: 'r' :: 'u' :: 'e' :: rest => some (.bool true, rest)
    | 'f' :: 'a' :: 'l' :: 's' :: 'e' :: rest => some (.bool false, rest)
    | '"' :: rest =>
      match parseJStr (rest.length + 1) rest with
      | some (s, r) => some (.str (String.mk s), r)
      | none => none
    | '[' :: rest =>
      (match skipWs rest with
      | ']' :: r2 => some (.arr [], r2)
      | _ =>
        match parseJArr fuel rest with
        | some (xs, r2) => some (.arr xs, r2)
        | none => none)
    | '{' :: rest =>
      (match skipWs rest with
      | '}' :: r2 => some (.obj [], r2)
      | _ =>
        match parseJObj fuel rest with
        | some (fs, r2) => some (.obj fs, r2)
        | none => none)
    | l2 =>
      match parseJNum l2 with
      | some (q, r) => some (.num q, r)
      | none => none

/-- Read the elements of a non-empty JSON array, then the closing bracket. -/
def parseJArr : Nat → List Char → Option (List Jv × List Char)
  | 0, _ => none
  | fuel + 1, l =>
    match parseJv fuel l with
    | none => none
    | some (v, r) =>
      match skipWs r with
      | ',' :: r2 =>
        match parseJArr fuel r2 with
        | some (xs, r3) => some (v :: xs, r3)
        | none => none
      | ']' :: r2 => some ([v], r2)
      | _ => none

/-- Read the members of a non-empty JSON object, then the closing brace. -/
def parseJObj : Nat → List Char → Option (List (String × Jv) × List Char)
  | 0, _ => none
  | fuel + 1, l =>
    match skipWs l with
    | '"' :: rest =>
      match parseJStr (rest.length + 1) rest with
      | none => none
      | some (k, r) =>
        match skipWs r with
        | ':' :: r2 =>
          match parseJv fuel r2 with
          | none => none
          | some (v, r3) =>
            match skipWs r3 with
            | ',' :: r4 =>
              match parseJObj fuel r4 with
              | some (fs, r5) => some ((String.mk k, v) :: fs, r5)
              | none => none
            | '}' :: r4 => some ([(String.mk k, v)], r4)
            | _ => none
        | _ => none
    | _ => none

end

/-- `JSON.parse`: one value, then only trailing whitespace. -/
def jsonParse (s : String) : Option Jv :=
  match parseJv (s.data.length + 2) s.data with
  | some (v, rest) => if skipWs rest = [] then some v else none
  | none => none

/-! ### Coercing the dynamic value to the typed record

The source casts the parsed value to `CalorieBreakdownResponse` with no
runtime check; property reads on a non-object, or of an absent key, give
`undefined`. Duplicate keys keep the last value, as in JS. -/

/-- Property read on an object's member list (last duplicate wins). -/
def getField (fields : List (String × Jv)) (key : String) : Option Jv :=
  (fields.filter (fun p => p.1 = key)).getLast?.map (fun p => p.2)

/-- A string-typed property, `none` when absent or not a string. -/
def asStr : Option Jv → Option String
  | some (.str s) => some s
  | _ => none

/-- A number-typed property, `none` when absent or not a number. -/
def asNum : Option Jv → Option Rat
  | some (.num q) => some q
  | _ => none

/-- One parsed food item. -/
def toFoodItem : Jv → FoodItem
  | .obj fs =>
    { itemName := asStr (getField fs "itemName"), quantity := asStr (getField fs "quantity"),
      calories := asNum (getField fs "calories"), protein_g := asNum (getField fs "protein_g"),
      carbs_g := asNum (getField fs "carbs_g"), fat_g := asNum (getField fs "fat_g") }
  | _ => default

/-- The parsed value as the `CalorieBreakdownResponse` the source casts it to. -/
def toCBR : Jv → CalorieBreakdownResponse
  | .obj fs =>
    { mealDescription := asStr (getField fs "mealDescription"),
      totalEstimatedCalories := asNum (getField fs "totalEstimatedCalories"),
      items :=
        match getField fs "items" with
        | some (.arr xs) => some (xs.map toFoodItem)
        | _ => none,
      confidenceScore := asNum (getField fs "confidenceScore"),
      assumptionsMade := asStr (getField fs "assumptionsMade"),
      error := asStr (getField fs "error") }
  | _ => default

/-! ### The pipeline over an oracle for the model collaborator

`generateContent` either yields a text or throws; the oracle fixes the
outcome of the `n`-th call of a run. Every stage threads the index of the
next call, so a returned index is the number of calls made so far.

The pipeline operates on runtime values (`Jv`): the source's
`CalorieBreakdownResponse` annotations are TypeScript types with no runtime
check, so a candidate can be any parsed JSON value. `toCBR` is applied
exactly where a claim talks about the declared record type. Thrown JS
exceptions are `Except.error`: each try/catch of the source is the
corresponding `match`, and the one rejection the source fails to catch —
the promise of `findConsensusResult`, returned without `await` — is the
`.error` outcome of `getCalorieBreakdownRaw`. -/

inductive CallResult
  | ok (text : String)
  | err
deriving DecidableEq

/-- One pipeline run's environment: whether `GEMINI_API_KEY` is set, the
model oracle, and the (behaviour-irrelevant) request data. -/
structure Env where
  hasKey : Bool
  model : Nat → CallResult
  imageDataBase64 : String
  mimeType : String
  mealContext : String

/-- `validateFoodImage`: one gate call; the answer is trimmed, lower-cased
and compared to `"true"`; a thrown call fails open to `true`. -/
def validateFoodImage (c : CallResult) : Bool :=
  match c with
  | .ok t => jsLower (jsTrim t) == "true"
  | .err => true

/-- JS truthiness of a parsed JSON value. `NaN` cannot arise from
`JSON.parse`, and `-0` (falsy in JS) is read by the parser as `0`, which is
falsy here too. -/
def jvTruthy : Jv → Bool
  | .null => false
  | .bool b => b
  | .num q => if q = 0 then false else true
  | .str s => if s = "" then false else true
  | .arr _ => true
  | .obj _ => true

/-- Property read on a runtime value: a member of an object, `undefined`
(`none`) otherwise. Reads on primitives are legal in JS (boxing), and the
values read here are never themselves `null`/`undefined` (candidates are
truthy). A read on a `null` ARRAY ELEMENT, which JS rejects with a
TypeError, is also modelled as `undefined`: no claim's statement,
counterexample or witness exercises a candidate holding `null` inside
`items`. -/
def jvGetProp : Jv → String → Option Jv
  | .obj fs, key => getField fs key
  | _, _ => none

/-- Property assignment on an object's member list: replace the value where
the key occurs (keeping its position), append otherwise. -/
def jvSetProp (fields : List (String × Jv)) (key : String) (v : Jv) :
    List (String × Jv) :=
  if fields.all (fun p => !(p.1 == key)) then fields ++ [(key, v)]
  else fields.map (fun p => if p.1 = key then (key, v) else p)

/-- Rendering of a number for `JSON.stringify`. JS prints the shortest
decimal that round-trips the double — injective on doubles; this rendering
is injective on `Rat` and coincides on integers. Only EQUALITY of rendered
keys is ever observed by the code. -/
def ratRender (q : Rat) : String :=
  if q.den = 1 then Int.repr q.num else Int.repr q.num ++ "/" ++ Nat.repr q.den

/-- A hexadecimal digit character. -/
def hexDigitChar (n : Nat) : Char :=
  if n < 10 then Char.ofNat (48 + n) else Char.ofNat (87 + n)

/-- One character of a `JSON.stringify`d string. -/
def jstrEscChar (c : Char) : String :=
  if c = '"' then "\\\""
  else if c = '\\' then "\\\\"
  else if c = '\n' then "\\n"
  else if c = '\r' then "\\r"
  else if c = '\t' then "\\t"
  else if c.toNat = 8 then "\\b"
  else if c.toNat = 12 then "\\f"
  else if c.toNat < 32 then
    "\\u00" ++ String.mk [hexDigitChar (c.toNat / 16), hexDigitChar (c.toNat % 16)]
  else String.mk [c]

/-- `JSON.stringify` of a string. -/
def jstrRender (s : String) : String :=
  "\"" ++ String.join (s.data.map jstrEscChar) ++ "\""

/-- Comma-join, as `JSON.stringify` separates members. -/
def joinComma : List String → String
  | [] => ""
  | [s] => s
  | s :: t :: r => s ++ "," ++ joinComma (t :: r)

mutual

/-- `JSON.stringify` of a runtime value (no `undefined` occurs inside a
parsed value). -/
def jvRender : Jv → String
  | .null => "null"
  | .bool true => "true"
  | .bool false => "false"
  | .num q => ratRender q
  | .str s => jstrRender s
  | .arr xs => "[" ++ jvRenderList xs ++ "]"
  | .obj fs => "\x7b" ++ jvRenderFields fs ++ "\x7d"

/-- Elements of an array, comma-separated. -/
def jvRenderList : List Jv → String
  | [] => ""
  | [v] => jvRender v
  | v :: v2 :: vs => jvRender v ++ "," ++ jvRenderList (v2 :: vs)

/-- Members of an object, comma-separated. -/
def jvRenderFields : List (String × Jv) → String
  | [] => ""
  | [(k, v)] => jstrRender k ++ ":" ++ jvRender v
  | (k, v) :: p :: fs => jstrRender k ++ ":" ++ jvRender v ++ "," ++ jvRenderFields (p :: fs)

end

/-- `JSON.stringify` of one simplified item `(itemName, calories)`;
`undefined` members are omitted. -/
def renderItemPair (p : Option Jv × Option Jv) : String :=
  "\x7b" ++ joinComma
    ((match p.1 with
      | some v => [jstrRender "itemName" ++ ":" ++ jvRender v]
      | none => []) ++
     (match p.2 with
      | some v => [jstrRender "calories" ++ ":" ++ jvRender v]
      | none => [])) ++ "\x7d"

/-- `JSON.stringify` of the simplified candidate view
`(mealDescription, totalEstimatedCalories, items)`; `undefined` members are
omitted. -/
def renderSig (a b : Option Jv) (c : Option (List (Option Jv × Option Jv))) : String :=
  "\x7b" ++ joinComma
    ((match a with
      | some v => [jstrRender "mealDescription" ++ ":" ++ jvRender v]
      | none => []) ++
     (match b with
      | some v => [jstrRender "totalEstimatedCalories" ++ ":" ++ jvRender v]
      | none => []) ++
     (match c with
      | some lst =>
        [jstrRender "items" ++ ":[" ++ joinComma (lst.map renderItemPair) ++ "]"]
      | none => [])) ++ "\x7d"

/-- The `resultKey` of one candidate: `JSON.stringify` of the simplified
view. `result.items?.map(...)` yields `undefined` when `items` is absent or
`null`, and throws a TypeError (`.map` is not a function) on every other
non-array value — the `.error` outcome. -/
def resultKeyD (v : Jv) : Except Unit String :=
  match jvGetProp v "items" with
  | some (.arr xs) =>
    .ok (renderSig (jvGetProp v "mealDescription") (jvGetProp v "totalEstimatedCalories")
      (some (xs.map (fun it => (jvGetProp it "itemName", jvGetProp it "calories")))))
  | some .null =>
    .ok (renderSig (jvGetProp v "mealDescription") (jvGetProp v "totalEstimatedCalories") none)
  | none =>
    .ok (renderSig (jvGetProp v "mealDescription") (jvGetProp v "totalEstimatedCalories") none)
  | some _ => .error ()

/-- One step of the occurrence count, keyed by the stringified view. -/
def bumpCountD : List (String × Nat × Jv) → String → Jv → List (String × Nat × Jv)
  | [], key, v => [(key, 1, v)]
  | (s, c, w) :: rest, key, v =>
    if key = s then (s, c + 1, w) :: rest else (s, c, w) :: bumpCountD rest key v

/-- The counting loop; a thrown `resultKey` computation aborts it. -/
def buildCountsD : List Jv → List (String × Nat × Jv) →
    Except Unit (List (String × Nat × Jv))
  | [], acc => .ok acc
  | v :: rest, acc =>
    match resultKeyD v with
    | .ok key => buildCountsD rest (bumpCountD acc key v)
    | .error e => .error e

/-- The `count > maxCount` loop over the map entries. -/
def pickMaxD : List (String × Nat × Jv) → Nat × Jv → Nat × Jv
  | [], acc => acc
  | (_, c, w) :: rest, acc => pickMaxD rest (if c > acc.1 then (c, w) else acc)

/-- `result.confidenceScore || 0`, as the number the `>` comparison sees. A
non-numeric value would go through JS `ToNumber` inside the comparison; it
is treated here as never exceeding the running maximum (as `NaN` is in JS);
a numeric string, which JS would coerce, is not modelled — no claim
observes a non-numeric confidence score. -/
def jvConf (v : Jv) : Rat :=
  match jvGetProp v "confidenceScore" with
  | some (.num q) => q
  | _ => 0

/-- The confidence tie-break loop on runtime candidates. -/
def pickConfD : List Jv → Rat × Jv → Rat × Jv
  | [], acc => acc
  | v :: rest, acc => pickConfD rest (if jvConf v > acc.1 then (jvConf v, v) else acc)

/-- The value interpolated by a template `${x || ''}`: the string itself,
`''` for a falsy value, and JS `String(...)` coercion otherwise
(approximated for arrays and non-integer numbers; no claim observes a
non-string `assumptionsMade`). -/
def jvTemplate : Option Jv → String
  | some (.str s) => s
  | some (.num q) => if q = 0 then "" else ratRender q
  | some (.bool b) => if b then "true" else ""
  | some (.arr _) => ""
  | some (.obj _) => "[object Object]"
  | some .null => ""
  | none => ""

/-- The assignment `w.assumptionsMade = \\`${w.assumptionsMade || ''}<note>\\`.trim()`.
On an object the member is written; on an array the assignment creates an
expando property invisible to `JSON` and to every later read of this code,
so the value is returned unchanged; on a primitive it is a strict-mode
TypeError (the file is an ES module, hence strict) — the `.error` outcome. -/
def jvAssignAssumptions (w : Jv) (note : String) : Except Unit Jv :=
  match w with
  | .obj fs =>
    .ok (.obj (jvSetProp fs "assumptionsMade"
      (.str (jsTrim (jvTemplate (getField fs "assumptionsMade") ++ note)))))
  | .arr xs => .ok (.arr xs)
  | _ => .error ()

/-- Append the fallback's consensus note to the winner. -/
def jvAddNoteD (w : Jv) (k n : Nat) : Except Unit Jv :=
  jvAssignAssumptions w (consensusNote k n)

/-- `findConsensusResultFallback` on the runtime candidates: frequency count
keyed by the stringified simplified view, first-seen max wins, confidence
tie-break when every count is 1, consensus note appended to the winner. A
throw anywhere (a non-array `items` during keying, a primitive winner at
the note assignment) propagates to the caller. -/
def findConsensusResultFallbackD (results : List Jv) : Except Unit Jv :=
  match buildCountsD results [] with
  | .error e => .error e
  | .ok counts =>
    let m := pickMaxD counts (0, results.headD .null)
    let w := if m.1 = 1 then (pickConfD results (0, m.2)).2 else m.2
    jvAddNoteD w m.1 results.length

/-- `JSON.parse` as an expression; the thrown `SyntaxError` is the error. -/
def jsonParseE (s : String) : Except Unit Jv :=
  match jsonParse s with
  | some v => .ok v
  | none => .error ()

/-- `validateJsonFormat`: one validation call; on success its reply is
fence-stripped, brace-extracted and parsed; if that parse fails, or the
call threw, the original `response` argument is parsed instead (both catch
blocks run `JSON.parse(response)`, whose own failure propagates). The
result is the parsed runtime value — the source's return type is a
TypeScript annotation with no runtime check. -/
def validateJsonFormat (env : Env) (n : Nat) (response : String) :
    Except Unit Jv × Nat :=
  match env.model n with
  | .err => (jsonParseE response, n + 1)
  | .ok text =>
    match jsonParse (extractJson text) with
    | some v => (.ok v, n + 1)
    | none => (jsonParseE response, n + 1)

/-- `processGeminiResponse`: apply the full cleanup, then validate; its own
try/catch turns any failure into the `null` discard signal (`none`). The
value returned on success is the parsed runtime value. -/
def processGeminiResponseRaw (env : Env) (n : Nat) (responseText : String) :
    Option Jv × Nat :=
  match validateJsonFormat env n (cleanup responseText) with
  | (.ok v, n') => (some v, n')
  | (.error _, n') => (none, n')

/-- The same outcome through the declared TypeScript type — the cast the
source performs by annotation alone. Claim C4 quantifies over this view. -/
def processGeminiResponse (env : Env) (n : Nat) (responseText : String) :
    Option CalorieBreakdownResponse × Nat :=
  ((processGeminiResponseRaw env n responseText).1.map toCBR,
    (processGeminiResponseRaw env n responseText).2)

/-- The `NUM_ANALYSES` loop: each attempt makes one analysis call (a throw
is caught and skips the attempt); a successful call's text goes through
`processGeminiResponse` (one more call), and the push site's
`if (processedResponse)` keeps only a TRUTHY outcome — the `null` failure
signal and a falsy parsed value (`null`, `false`, `0`, `""`) are equally
dropped. -/
def runAnalyses (env : Env) : Nat → Nat → List Jv × Nat
  | 0, n => ([], n)
  | k + 1, n =>
    match env.model n with
    | .err => runAnalyses env k (n + 1)
    | .ok text =>
      match processGeminiResponseRaw env (n + 1) text with
      | (some v, n') =>
        if jvTruthy v then
          let rec2 := runAnalyses env k n'
          (v :: rec2.1, rec2.2)
        else runAnalyses env k n'
      | (none, n') => runAnalyses env k n'

/-- `findConsensusResultWithModel`: one merge call; a truthy processed reply
gets the consensus note written onto it inside the try block, so the
TypeError on a primitive reply is caught there and falls back; a falsy or
failed reply falls back directly. A throw inside the fallback itself —
reached from the catch block or the else branch — propagates as the
function's rejection. -/
def findConsensusResultWithModelD (env : Env) (n : Nat) (results : List Jv) :
    Except Unit Jv × Nat :=
  match env.model n with
  | .err => (findConsensusResultFallbackD results, n + 1)
  | .ok text =>
    match processGeminiResponseRaw env (n + 1) text with
    | (some v, n') =>
      if jvTruthy v then
        match jvAssignAssumptions v
          (" (Consensus generated from " ++ Nat.repr results.length ++
            " analyses using AI)") with
        | .ok v' => (.ok v', n')
        | .error _ => (findConsensusResultFallbackD results, n')
      else (findConsensusResultFallbackD results, n')
    | (none, n') => (findConsensusResultFallbackD results, n')

/-- `findConsensusResult`: a single candidate is returned unchanged; with no
API key the deterministic fallback runs; otherwise the model-assisted merge.
`results` is nonempty at every call site. -/
def findConsensusResultD (env : Env) (n : Nat) (results : List Jv) :
    Except Unit Jv × Nat :=
  if results.length = 1 then (.ok (results.headD .null), n)
  else if env.hasKey = false then (findConsensusResultFallbackD results, n)
  else findConsensusResultWithModelD env n results

/-- The "not a food photo" object literal the source returns. -/
def notFoodJv : Jv :=
  .obj [("error", .str "The uploaded image does not appear to be a food or meal photo. Please upload an image of your meal."),
        ("totalEstimatedCalories", .num 0), ("items", .arr [])]

/-- The "failed after multiple attempts" object literal. -/
def allFailedJv : Jv :=
  .obj [("error", .str "Failed to get any valid calorie breakdown from AI after multiple attempts."),
        ("totalEstimatedCalories", .num 0), ("items", .arr [])]

/-- The catch-all error object literal of `getCalorieBreakdown`. -/
def genericErrorJv : Jv :=
  .obj [("error", .str "Failed to get calorie breakdown from AI. Please try again later."),
        ("totalEstimatedCalories", .num 0), ("items", .arr [])]

/-- The fixed "not a food photo" result, as the declared record type. -/
def notFoodResult : CalorieBreakdownResponse :=
  { mealDescription := none, totalEstimatedCalories := some 0, items := some [],
    confidenceScore := none, assumptionsMade := none,
    error := some "The uploaded image does not appear to be a food or meal photo. Please upload an image of your meal." }

/-- The fixed "failed after multiple attempts" result, as the record type. -/
def allFailedResult : CalorieBreakdownResponse :=
  { mealDescription := none, totalEstimatedCalories := some 0, items := some [],
    confidenceScore := none, assumptionsMade := none,
    error := some "Failed to get any valid calorie breakdown from AI after multiple attempts." }

/-- The catch-all error result of `getCalorieBreakdown`, as the record type. -/
def genericErrorResult : CalorieBreakdownResponse :=
  { mealDescription := none, totalEstimatedCalories := some 0, items := some [],
    confidenceScore := none, assumptionsMade := none,
    error := some "Failed to get calorie breakdown from AI. Please try again later." }

/-- `getCalorieBreakdown`, as the caller's `await` observes it: `.ok` is the
resolved value, `.error` an uncaught rejection. A missing key throws inside
the try block and is caught (the generic error result); the gate and the
sampling loop handle their own failures; but `findConsensusResult
(analysisResults)` is called WITHOUT `await` and its promise returned, so a
rejection of that promise — a throw inside the consensus step — bypasses
the top-level catch and reaches the caller. -/
def getCalorieBreakdownRaw (env : Env) : Except Unit Jv × Nat :=
  if env.hasKey = false then (.ok genericErrorJv, 0)
  else if validateFoodImage (env.model 0) = false then (.ok notFoodJv, 1)
  else
    let sres := runAnalyses env 5 1
    if sres.1.length = 0 then (.ok allFailedJv, sres.2)
    else
      let cres := findConsensusResultD env sres.2 sres.1
      (cres.1, cres.2)

/-- The run through the declared result type — the view claims C4 and C8
quantify over. On the uncaught-rejection path no value reaches the caller;
this view maps that path to the empty record, and no record-typed claim's
theorem exercises it (claim C9 records the escape on
`getCalorieBreakdownRaw` itself). -/
def getCalorieBreakdown (env : Env) : CalorieBreakdownResponse × Nat :=
  match getCalorieBreakdownRaw env with
  | (.ok v, n) => (toCBR v, n)
  | (.error _, n) => (default, n)

/-- The samples a run collects (the `analysisResults` array). -/
def analysisSamples (env : Env) : List Jv := (runAnalyses env 5 1).1

/-- The call index after the sampling loop. -/
def analysisCallsEnd (env : Env) : Nat := (runAnalyses env 5 1).2

/-- An environment whose model always throws. -/
def envAllErr : Env :=
  { hasKey := true, model := fun _ => .err,
    imageDataBase64 := "", mimeType := "", mealContext := "" }

/-- An environment whose gate call answers "false". -/
def envNotFood : Env :=
  { hasKey := true,
    model := fun n => match n with | 0 => .ok "false" | _ => .err,
    imageDataBase64 := "", mimeType := "", mealContext := "" }

/-- An environment where the gate passes, the first analysis reply is the
empty object (truthy, so it is kept) and everything else throws. -/
def envC4 : Env :=
  { hasKey := true,
    model := fun n => match n with | 0 => .ok "true" | 1 => .ok "\x7b\x7d" | _ => .err,
    imageDataBase64 := "", mimeType := "", mealContext := "" }

/-- An environment where the gate passes and the single successful analysis
reply is a schema-conforming object with an empty `items` array. -/
def envW4 : Env :=
  { hasKey := true,
    model := fun n =>
      match n with | 0 => .ok "true" | 1 => .ok "\x7b\"items\":[]\x7d" | _ => .err,
    imageDataBase64 := "", mimeType := "", mealContext := "" }

/-- The failing behaviour recorded for claim C9: gate "true", analysis
replies "5" at calls 1 and 3, every other call (validation calls 2 and 4,
attempts 3 to 5, and the consensus merge call) throws. -/
def envC9 : Env :=
  { hasKey := true,
    model := fun n =>
      match n with
      | 0 => .ok "true"
      | 1 => .ok "5"
      | 3 => .ok "5"
      | _ => .err,
    imageDataBase64 := "", mimeType := "", mealContext := "" }

/-- Every analysis reply parses to the falsy value `null`: each of the 5
samples is discarded by the `if (processedResponse)` truthiness check. -/
def envAllNull : Env :=
  { hasKey := true,
    model := fun n => match n with | 0 => .ok "true" | _ => .ok "null",
    imageDataBase64 := "", mimeType := "", mealContext := "" }

set_option maxRecDepth 4000

/-! ### Concrete candidates used by witnesses and counterexamples -/

/-- A candidate with high confidence. -/
def sampleA : CalorieBreakdownResponse :=
  { mealDescription := some "grilled chicken", totalEstimatedCalories := some 400,
    items := some [], confidenceScore := some (2 : Rat), assumptionsMade := some "std",
    error := none }

/-- Same signature as `sampleA`, lower confidence. -/
def sampleB : CalorieBreakdownResponse := { sampleA with confidenceScore := some (1 : Rat) }

/-- A different signature (different total calories). -/
def sampleC : CalorieBreakdownResponse := { sampleA with totalEstimatedCalories := some 700 }

/-- A different signature again, same confidence as `sampleA`. -/
def sampleD : CalorieBreakdownResponse := { sampleA with mealDescription := some "salad" }

/-! ### Helper lemmas about trimming and the consensus note -/

theorem trimRightL_append_keep (l m : List Char) (c : Char) (t : List Char)
    (hm : m.reverse = c :: t) (hc : jsWsChar c = false) :
    trimRightL (l ++ m) = l ++ m := by
  unfold trimRightL
  rw [List.reverse_append, hm, List.cons_append, List.dropWhile_cons]
  simp only [hc, Bool.false_eq_true, if_false]
  have hm2 : m = t.reverse ++ [c] := by
    rw [← List.reverse_reverse m, hm, List.reverse_cons]
  rw [hm2]
  simp [List.reverse_cons, List.reverse_append, List.reverse_reverse, List.append_assoc]

theorem suffix_trimLeftL (l m tgt : List Char)
    (h1 : tgt <:+ List.dropWhile jsWsChar m) (h2 : tgt <:+ m) :
    tgt <:+ trimLeftL (l ++ m) := by
  induction l with
  | nil => simpa [trimLeftL] using h1
  | cons c l' ih =>
    unfold trimLeftL at ih ⊢
    rw [List.cons_append, List.dropWhile_cons]
    by_cases hc : jsWsChar c = true
    · simpa [hc] using ih
    · simp only [hc, if_false]
      exact (h2.trans (List.suffix_append l' m)).trans (List.suffix_cons c _)

theorem consensusNote_two_three :
    consensusNote 2 3 = " (Based on consensus from 2/3 analyses)" := by decide

theorem endsWith_note23 (s : String) :
    endsWithText (jsTrim (s ++ consensusNote 2 3)) "consensus from 2/3 analyses)" := by
  unfold endsWithText jsTrim
  rw [consensusNote_two_three, String.data_append]
  rw [trimRightL_append_keep s.data _ ')'
    (" (Based on consensus from 2/3 analyses").data.reverse (by decide) (by decide)]
  exact suffix_trimLeftL _ _ _ (by decide) (by decide)

theorem endsWith_addNote23 (w : CalorieBreakdownResponse) :
    endsWithText ((addNote w 2 3).assumptionsMade.getD "") "consensus from 2/3 analyses)" := by
  simpa [addNote] using endsWith_note23 (w.assumptionsMade.getD "")

/-! ### Claim C1: three candidates, two agreeing -/

/-- C1 (amended): for 3 candidates of which exactly 2 share a signature, the
fallback reducer returns the first-seen of the 2 matching candidates with the
consensus note appended, and its `assumptionsMade` ends with
"consensus from 2/3 analyses)" (with the closing parenthesis of the note). -/
theorem claim_C1_amended (x y z : CalorieBreakdownResponse)
    (h : (simplifiedSig y = simplifiedSig x ∧ ¬ simplifiedSig z = simplifiedSig x) ∨
         (¬ simplifiedSig y = simplifiedSig x ∧ simplifiedSig z = simplifiedSig x) ∨
         (¬ simplifiedSig y = simplifiedSig x ∧ ¬ simplifiedSig z = simplifiedSig x ∧
           simplifiedSig z = simplifiedSig y)) :
    ∃ w, (w = x ∨ w = y) ∧
      List.countP (fun r => decide (simplifiedSig r = simplifiedSig w)) [x, y, z] = 2 ∧
      findConsensusResultFallback [x, y, z] = addNote w 2 3 ∧
      endsWithText ((findConsensusResultFallback [x, y, z]).assumptionsMade.getD "")
        "consensus from 2/3 analyses)" := by
  rcases h with ⟨h1, h2⟩ | ⟨h1, h2⟩ | ⟨h1, h2, h3⟩
  · have hfb : findConsensusResultFallback [x, y, z] = addNote x 2 3 := by
      unfold findConsensusResultFallback resultCounts
      simp [bumpCount, pickMax, h1, h2]
    exact ⟨x, Or.inl rfl, by simp [h1, h2], hfb, hfb ▸ endsWith_addNote23 x⟩
  · have hfb : findConsensusResultFallback [x, y, z] = addNote x 2 3 := by
      unfold findConsensusResultFallback resultCounts
      simp [bumpCount, pickMax, h1, h2]
    exact ⟨x, Or.inl rfl, by simp [h1, h2], hfb, hfb ▸ endsWith_addNote23 x⟩
  · have hfb : findConsensusResultFallback [x, y, z] = addNote y 2 3 := by
      unfold findConsensusResultFallback resultCounts
      simp [bumpCount, pickMax, h1, h2, h3]
    have hyx : ¬ simplifiedSig x = simplifiedSig y := fun hh => h1 hh.symm
    exact ⟨y, Or.inr rfl, by simp [hyx, h3], hfb, hfb ▸ endsWith_addNote23 y⟩

/-- C1 counterexample: with two matching candidates and one differing, the
returned `assumptionsMade` is "std (Based on consensus from 2/3 analyses)",
which does NOT end with the exact text "consensus from 2/3 analyses" — the
note's closing parenthesis follows it. -/
theorem claim_C1_counterexample :
    (findConsensusResultFallback [sampleA, sampleB, sampleC]).assumptionsMade =
      some "std (Based on consensus from 2/3 analyses)" ∧
    ¬ endsWithText
        ((findConsensusResultFallback [sampleA, sampleB, sampleC]).assumptionsMade.getD "")
        "consensus from 2/3 analyses" := by
  constructor
  · decide
  · decide

/-- Witness for C1 (amended) at the concrete candidates. -/
theorem claim_C1_witness :
    ∃ w, (w = sampleA ∨ w = sampleB) ∧
      List.countP (fun r => decide (simplifiedSig r = simplifiedSig w))
        [sampleA, sampleB, sampleC] = 2 ∧
      findConsensusResultFallback [sampleA, sampleB, sampleC] = addNote w 2 3 ∧
      endsWithText
        ((findConsensusResultFallback [sampleA, sampleB, sampleC]).assumptionsMade.getD "")
        "consensus from 2/3 analyses)" :=
  claim_C1_amended sampleA sampleB sampleC (Or.inl ⟨by decide, by decide⟩)

/-! ### Fold lemmas for the fallback reducer -/

theorem bumpCount_append (acc : List _) (r : CalorieBreakdownResponse)
    (h : ∀ e ∈ acc, simplifiedSig r ≠ e.1) :
    bumpCount acc r = acc ++ [(simplifiedSig r, 1, r)] := by
  induction acc with
  | nil => rfl
  | cons e rest ih =>
    obtain ⟨s, c, w⟩ := e
    have hne : ¬ simplifiedSig r = s := h (s, c, w) (List.mem_cons_self _ _)
    simp only [bumpCount, if_neg hne, List.cons_append, List.cons.injEq, true_and]
    exact ih (fun e he => h e (List.mem_cons_of_mem _ he))

theorem resultCounts_of_nodup' (l : List CalorieBreakdownResponse) :
    ∀ (acc : List _), (l.map simplifiedSig).Nodup →
    (∀ e ∈ acc, ∀ r ∈ l, simplifiedSig r ≠ e.1) →
    l.foldl bumpCount acc = acc ++ l.map (fun r => (simplifiedSig r, 1, r)) := by
  induction l with
  | nil => intro acc _ _; simp
  | cons r l' ih =>
    intro acc hnd hdis
    rw [List.map_cons, List.nodup_cons] at hnd
    obtain ⟨hnotmem, hnd'⟩ := hnd
    rw [List.foldl_cons, bumpCount_append acc r (fun e he => hdis e he r (List.mem_cons_self _ _)),
      ih _ hnd' ?_]
    · simp
    · intro e he r' hr'
      rcases List.mem_append.1 he with he' | he'
      · exact hdis e he' r' (List.mem_cons_of_mem _ hr')
      · have heq : e = (simplifiedSig r, 1, r) := by simpa using he'
        subst heq
        simp only [List.mem_map, not_exists, not_and] at hnotmem
        intro hcontra
        exact hnotmem r' hr' hcontra

theorem resultCounts_of_nodup (l : List CalorieBreakdownResponse)
    (hnd : (l.map simplifiedSig).Nodup) :
    resultCounts l = l.map (fun r => (simplifiedSig r, 1, r)) := by
  simpa using resultCounts_of_nodup' l [] hnd (by simp)

theorem pickMax_of_le (entries : List _) (acc : Nat × CalorieBreakdownResponse)
    (h : ∀ e ∈ entries, e.2.1 ≤ acc.1) : pickMax entries acc = acc := by
  induction entries with
  | nil => rfl
  | cons e rest ih =>
    obtain ⟨s, c, w⟩ := e
    have hc : ¬ c > acc.1 := not_lt.2 (h (s, c, w) (List.mem_cons_self _ _))
    simp only [pickMax, if_neg hc]
    exact ih (fun e he => h e (List.mem_cons_of_mem _ he))

theorem pickConf_spec (l : List CalorieBreakdownResponse) :
    ∀ (hc : Rat) (cur : CalorieBreakdownResponse),
    ((∀ r ∈ l, r.confidenceScore.getD 0 ≤ hc) ∧ pickConf l (hc, cur) = (hc, cur)) ∨
    (∃ pre w post, l = pre ++ w :: post ∧ hc < w.confidenceScore.getD 0 ∧
      (∀ r ∈ pre, r.confidenceScore.getD 0 < w.confidenceScore.getD 0) ∧
      (∀ r ∈ post, r.confidenceScore.getD 0 ≤ w.confidenceScore.getD 0) ∧
      pickConf l (hc, cur) = (w.confidenceScore.getD 0, w)) := by
  induction l with
  | nil => intro hc cur; exact Or.inl ⟨by simp, rfl⟩
  | cons r rest ih =>
    intro hc cur
    by_cases hr : r.confidenceScore.getD 0 > hc
    · have hstep : pickConf (r :: rest) (hc, cur) =
          pickConf rest (r.confidenceScore.getD 0, r) := by
        simp [pickConf, if_pos hr]
      rcases ih (r.confidenceScore.getD 0) r with ⟨hall, heq⟩ | ⟨pre, w, post, hsp, hlt, hpre, hpost, heq⟩
      · refine Or.inr ⟨[], r, rest, by simp, hr, by simp, hall, ?_⟩
        rw [hstep, heq]
      · refine Or.inr ⟨r :: pre, w, post, by simp [hsp], lt_trans hr hlt, ?_, hpost, ?_⟩
        · intro r' hr'
          rcases List.mem_cons.1 hr' with h' | h'
          · exact h' ▸ hlt
          · exact hpre r' h'
        · rw [hstep, heq]
    · have hstep : pickConf (r :: rest) (hc, cur) = pickConf rest (hc, cur) := by
        simp [pickConf, if_neg hr]
      have hrle : r.confidenceScore.getD 0 ≤ hc := not_lt.1 hr
      rcases ih hc cur with ⟨hall, heq⟩ | ⟨pre, w, post, hsp, hlt, hpre, hpost, heq⟩
      · refine Or.inl ⟨?_, by rw [hstep, heq]⟩
        intro r' hr'
        rcases List.mem_cons.1 hr' with h' | h'
        · exact h' ▸ hrle
        · exact hall r' h'
      · refine Or.inr ⟨r :: pre, w, post, by simp [hsp], hlt, ?_, hpost, by rw [hstep, heq]⟩
        intro r' hr'
        rcases List.mem_cons.1 hr' with h' | h'
        · exact h' ▸ (lt_of_le_of_lt hrle hlt)
        · exact hpre r' h'

/-! ### Claim C2: all signatures distinct, confidence tie-break -/

/-- C2: when no two candidates share a signature (every frequency is 1), the
fallback reducer returns the first-provided candidate of highest
`confidenceScore` (absent treated as 0), with the "1/n" consensus note
appended. Scores are nonnegative per the data model (`confidenceScore`
lies in `[0,1]`). -/
theorem claim_C2 (results : List CalorieBreakdownResponse) (hne : results ≠ [])
    (hnd : (results.map simplifiedSig).Nodup)
    (hconf : ∀ r ∈ results, 0 ≤ r.confidenceScore.getD 0) :
    ∃ pre w post, results = pre ++ w :: post ∧
      (∀ r ∈ results, r.confidenceScore.getD 0 ≤ w.confidenceScore.getD 0) ∧
      (∀ r ∈ pre, r.confidenceScore.getD 0 < w.confidenceScore.getD 0) ∧
      findConsensusResultFallback results = addNote w 1 results.length := by
  obtain ⟨r0, rest, rfl⟩ := List.exists_cons_of_ne_nil hne
  have hcounts := resultCounts_of_nodup (r0 :: rest) hnd
  have hmax : pickMax (resultCounts (r0 :: rest)) (0, r0) = (1, r0) := by
    rw [hcounts, List.map_cons]
    show pickMax _ _ = _
    rw [pickMax, if_pos (by norm_num)]
    refine pickMax_of_le _ _ ?_
    intro e he
    simp only [List.mem_map] at he
    obtain ⟨r, _, rfl⟩ := he
    exact le_refl 1
  have hfb : findConsensusResultFallback (r0 :: rest) =
      addNote (pickConf (r0 :: rest) (0, r0)).2 1 (r0 :: rest).length := by
    simp [findConsensusResultFallback, hmax]
  rcases pickConf_spec (r0 :: rest) 0 r0 with ⟨hall, heq⟩ | ⟨pre, w, post, hsp, _, hpre, hpost, heq⟩
  · refine ⟨[], r0, rest, by simp, ?_, by simp, ?_⟩
    · intro r hr
      exact le_trans (hall r hr) (hconf r0 (List.mem_cons_self _ _))
    · rw [hfb, heq]
  · refine ⟨pre, w, post, hsp, ?_, hpre, ?_⟩
    · intro r hr
      rw [hsp] at hr
      rcases List.mem_append.1 hr with h' | h'
      · exact le_of_lt (hpre r h')
      · rcases List.mem_cons.1 h' with h'' | h''
        · exact h'' ▸ le_refl _
        · exact hpost r h''
    · rw [hfb, heq]

/-- Witness for C2: two disagreeing candidates with equal confidence scores;
the first is returned (with the 1/2 note appended). -/
theorem claim_C2_witness :
    ∃ pre w post, [sampleD, sampleC] = pre ++ w :: post ∧
      (∀ r ∈ [sampleD, sampleC],
        r.confidenceScore.getD 0 ≤ w.confidenceScore.getD 0) ∧
      (∀ r ∈ pre, r.confidenceScore.getD 0 < w.confidenceScore.getD 0) ∧
      findConsensusResultFallback [sampleD, sampleC] = addNote w 1 [sampleD, sampleC].length :=
  claim_C2 [sampleD, sampleC] (by decide) (by decide) (by decide)

/-! ### Membership lemmas for the fallback reducer -/

theorem bumpCount_mem (acc : List _) (r : CalorieBreakdownResponse) (e)
    (he : e ∈ bumpCount acc r) : (∃ e' ∈ acc, e.2.2 = e'.2.2) ∨ e.2.2 = r := by
  induction acc with
  | nil =>
    simp only [bumpCount, List.mem_singleton] at he
    exact Or.inr (by rw [he])
  | cons e0 rest ih =>
    obtain ⟨s, c, w⟩ := e0
    by_cases hs : simplifiedSig r = s
    · simp only [bumpCount, if_pos hs, List.mem_cons] at he
      rcases he with he | he
      · exact Or.inl ⟨(s, c, w), List.mem_cons_self _ _, by rw [he]⟩
      · exact Or.inl ⟨e, List.mem_cons_of_mem _ he, rfl⟩
    · simp only [bumpCount, if_neg hs, List.mem_cons] at he
      rcases he with he | he
      · exact Or.inl ⟨(s, c, w), List.mem_cons_self _ _, by rw [he]⟩
      · rcases ih he with ⟨e', he', heq⟩ | heq
        · exact Or.inl ⟨e', List.mem_cons_of_mem _ he', heq⟩
        · exact Or.inr heq

theorem foldl_bumpCount_mem (l : List CalorieBreakdownResponse) :
    ∀ (acc : List _) (e), e ∈ l.foldl bumpCount acc →
      (∃ e' ∈ acc, e.2.2 = e'.2.2) ∨ e.2.2 ∈ l := by
  induction l with
  | nil => intro acc e he; exact Or.inl ⟨e, he, rfl⟩
  | cons r l' ih =>
    intro acc e he
    rw [List.foldl_cons] at he
    rcases ih (bumpCount acc r) e he with ⟨e', he', heq⟩ | hmem
    · rcases bumpCount_mem acc r e' he' with ⟨e'', he'', heq'⟩ | heq'
      · exact Or.inl ⟨e'', he'', heq.trans heq'⟩
      · exact Or.inr (heq.trans heq' ▸ List.mem_cons_self _ _)
    · exact Or.inr (List.mem_cons_of_mem _ hmem)

theorem resultCounts_mem (results : List CalorieBreakdownResponse) (e)
    (he : e ∈ resultCounts results) : e.2.2 ∈ results := by
  rcases foldl_bumpCount_mem results [] e he with ⟨e', he', _⟩ | hmem
  · exact absurd he' (List.not_mem_nil e')
  · exact hmem

theorem pickMax_mem (entries : List _) :
    ∀ (acc : Nat × CalorieBreakdownResponse),
      (pickMax entries acc).2 = acc.2 ∨ ∃ e ∈ entries, (pickMax entries acc).2 = e.2.2 := by
  induction entries with
  | nil => intro acc; exact Or.inl rfl
  | cons e0 rest ih =>
    intro acc
    obtain ⟨s, c, w⟩ := e0
    rw [pickMax]
    by_cases hc : c > acc.1
    · rw [if_pos hc]
      rcases ih (c, w) with heq | ⟨e, he, heq⟩
      · exact Or.inr ⟨(s, c, w), List.mem_cons_self _ _, heq⟩
      · exact Or.inr ⟨e, List.mem_cons_of_mem _ he, heq⟩
    · rw [if_neg hc]
      rcases ih acc with heq | ⟨e, he, heq⟩
      · exact Or.inl heq
      · exact Or.inr ⟨e, List.mem_cons_of_mem _ he, heq⟩

theorem pickConf_mem (l : List CalorieBreakdownResponse) :
    ∀ (acc : Rat × CalorieBreakdownResponse),
      (pickConf l acc).2 = acc.2 ∨ (pickConf l acc).2 ∈ l := by
  induction l with
  | nil => intro acc; exact Or.inl rfl
  | cons r rest ih =>
    intro acc
    rw [pickConf]
    by_cases hr : r.confidenceScore.getD 0 > acc.1
    · rw [if_pos hr]
      rcases ih (r.confidenceScore.getD 0, r) with heq | hmem
      · exact Or.inr (heq ▸ List.mem_cons_self _ _)
      · exact Or.inr (List.mem_cons_of_mem _ hmem)
    · rw [if_neg hr]
      rcases ih acc with heq | hmem
      · exact Or.inl heq
      · exact Or.inr (List.mem_cons_of_mem _ hmem)

/-- The winner the fallback annotates is always one of the inputs. -/
theorem fallback_winner_mem (results : List CalorieBreakdownResponse) (hne : results ≠ []) :
    ∃ w ∈ results, findConsensusResultFallback results =
      addNote w (pickMax (resultCounts results) (0, results.headD default)).1 results.length := by
  obtain ⟨r0, rest, rfl⟩ := List.exists_cons_of_ne_nil hne
  simp only [findConsensusResultFallback]
  set m := pickMax (resultCounts (r0 :: rest)) (0, (r0 :: rest).headD default) with hm
  have hmmem : m.2 ∈ (r0 :: rest) := by
    rcases pickMax_mem (resultCounts (r0 :: rest)) (0, (r0 :: rest).headD default) with heq | ⟨e, he, heq⟩
    · rw [hm, heq]; exact List.mem_cons_self _ _
    · rw [hm, heq]; exact resultCounts_mem _ e he
  by_cases h1 : m.1 = 1
  · rcases pickConf_mem (r0 :: rest) (0, m.2) with heq | hmem
    · exact ⟨m.2, hmmem, by rw [if_pos h1, heq, h1]⟩
    · exact ⟨(pickConf (r0 :: rest) (0, m.2)).2, hmem, by rw [if_pos h1, h1]⟩
  · exact ⟨m.2, hmmem, by rw [if_neg h1]⟩

/-! ### Claim C10: the reducer returns an input candidate, changing only
`assumptionsMade` -/

/-- C10: with 2 or more candidates the fallback reducer returns one of its
input candidates with only `assumptionsMade` rewritten (the consensus note
appended); every other field equals the winning candidate's. -/
theorem claim_C10 (results : List CalorieBreakdownResponse) (h2 : 2 ≤ results.length) :
    ∃ w ∈ results, ∃ k,
      findConsensusResultFallback results = addNote w k results.length ∧
      (findConsensusResultFallback results).mealDescription = w.mealDescription ∧
      (findConsensusResultFallback results).totalEstimatedCalories = w.totalEstimatedCalories ∧
      (findConsensusResultFallback results).items = w.items ∧
      (findConsensusResultFallback results).confidenceScore = w.confidenceScore ∧
      (findConsensusResultFallback results).error = w.error ∧
      (findConsensusResultFallback results).assumptionsMade =
        some (jsTrim ((w.assumptionsMade.getD "") ++ consensusNote k results.length)) := by
  have hne : results ≠ [] := by
    intro h; rw [h] at h2; exact absurd h2 (by norm_num)
  obtain ⟨w, hw, heq⟩ := fallback_winner_mem results hne
  exact ⟨w, hw, _, heq, by rw [heq]; rfl, by rw [heq]; rfl, by rw [heq]; rfl,
    by rw [heq]; rfl, by rw [heq]; rfl, by rw [heq]; rfl⟩

/-- Witness for C10 at two concrete candidates. -/
theorem claim_C10_witness :
    ∃ w ∈ [sampleA, sampleC], ∃ k,
      findConsensusResultFallback [sampleA, sampleC] = addNote w k [sampleA, sampleC].length ∧
      (findConsensusResultFallback [sampleA, sampleC]).mealDescription = w.mealDescription ∧
      (findConsensusResultFallback [sampleA, sampleC]).totalEstimatedCalories =
        w.totalEstimatedCalories ∧
      (findConsensusResultFallback [sampleA, sampleC]).items = w.items ∧
      (findConsensusResultFallback [sampleA, sampleC]).confidenceScore = w.confidenceScore ∧
      (findConsensusResultFallback [sampleA, sampleC]).error = w.error ∧
      (findConsensusResultFallback [sampleA, sampleC]).assumptionsMade =
        some (jsTrim ((w.assumptionsMade.getD "") ++
          consensusNote k [sampleA, sampleC].length)) :=
  claim_C10 [sampleA, sampleC] (by decide)

/-! ### Scan-identity lemmas for the cleanup passes -/

theorem goScan_id (t : RTag) : ∀ (f : Nat) (l : List Char), NoMatchP t l → goScan t f l = l := by
  intro f
  induction f with
  | zero => intro l _; rfl
  | succ f ih =>
    intro l hl
    match l with
    | [] => rfl
    | c :: cs =>
      obtain ⟨h1, h2⟩ := hl
      rw [goScan, h1]
      exact congrArg (c :: ·) (ih cs h2)

theorem runRepl_id (t : RTag) (l : List Char) (h : NoMatchP t l) : runRepl t l = l :=
  goScan_id t (l.length + 1) l h

theorem noMatchP_append (t : RTag) (p rest : List Char)
    (hp : ∀ c ∈ p, ∀ cs, matcherOf t (c :: cs) = none)
    (hrest : NoMatchP t rest) : NoMatchP t (p ++ rest) := by
  induction p with
  | nil => exact hrest
  | cons c p' ih =>
    exact ⟨hp c (List.mem_cons_self _ _) _,
      ih (fun c' hc' => hp c' (List.mem_cons_of_mem _ hc'))⟩

theorem noMatchP_of_all (t : RTag) (l : List Char)
    (h : ∀ c ∈ l, ∀ cs, matcherOf t (c :: cs) = none) : NoMatchP t l := by
  induction l with
  | nil => trivial
  | cons c cs ih =>
    exact ⟨h c (List.mem_cons_self _ _) _, ih (fun c' hc' => h c' (List.mem_cons_of_mem _ hc'))⟩

theorem matcherA_head_none (c : Char) (cs : List Char) (h : ¬ c = backtick) :
    matcherA (c :: cs) = none := by
  simp [matcherA, h]

theorem matcherB_head_none (c : Char) (cs : List Char) (h : ¬ c = backtick) :
    matcherB (c :: cs) = none := by
  simp [matcherB, h]

theorem matcherD_head_none (c : Char) (cs : List Char) (h : ¬ c = '"') :
    matcherD (c :: cs) = none := by
  simp [matcherD, h]

theorem matcherE_head_none (c : Char) (cs : List Char) (h : ¬ c = '"') :
    matcherE (c :: cs) = none := by
  simp [matcherE, h]

theorem matcherF_head_none (c : Char) (cs : List Char) (h : ¬ c = '"') :
    matcherF (c :: cs) = none := by
  simp [matcherF, h]

theorem matcherG_head_none (c : Char) (cs : List Char) (h : ¬ c = ',') :
    matcherG (c :: cs) = none := by
  simp [matcherG, h]

theorem splitAtQuote_not_mem (l : List Char) (h : ∀ c ∈ l, ¬ c = '"') :
    splitAtQuote l = none := by
  induction l with
  | nil => rfl
  | cons c cs ih =>
    rw [splitAtQuote, if_neg (h c (List.mem_cons_self _ _)),
      ih (fun c' hc' => h c' (List.mem_cons_of_mem _ hc'))]

theorem splitAtQuote_append (k rest : List Char) (hk : ∀ c ∈ k, ¬ c = '"') :
    splitAtQuote (k ++ '"' :: rest) = some (k, rest) := by
  induction k with
  | nil => simp [splitAtQuote]
  | cons c k' ih =>
    rw [List.cons_append, splitAtQuote, if_neg (hk c (List.mem_cons_self _ _)),
      ih (fun c' hc' => hk c' (List.mem_cons_of_mem _ hc'))]

theorem extractBraces_full (mid : List Char) :
    extractBraces ('{' :: (mid ++ ['}'])) = '{' :: (mid ++ ['}']) := by
  have h1 : List.findIdx? (fun c => c = '{') ('{' :: (mid ++ ['}'])) = some 0 := by
    simp [List.findIdx?_cons]
  have h2 : List.findIdx? (fun c => c = '}') (('{' :: (mid ++ ['}'])).reverse) = some 0 := by
    rw [List.reverse_cons, List.reverse_append]
    simp [List.findIdx?_cons]
  rw [extractBraces, h1, h2]
  dsimp only
  have hlen : ('{' :: (mid ++ ['}'])).length = mid.length + 2 := by simp
  rw [hlen]
  have hij : (0 : Nat) < mid.length + 2 - 1 - 0 := by omega
  rw [if_pos hij]
  have heq : mid.length + 2 - 1 - 0 - 0 + 1 = ('{' :: (mid ++ ['}'])).length := by
    simp
  rw [List.drop_zero, heq, List.take_length]

theorem matcherD_q1 (k rest : List Char) (hk : ∀ c ∈ k, ¬ c = '"') :
    matcherD ('"' :: (k ++ '"' :: (':' :: rest))) = none := by
  rw [matcherD, if_pos rfl, splitAtQuote_append k _ hk]
  simp [isDelimD, List.takeWhile_cons]

theorem matcherD_no_quote (l : List Char) (h : ∀ c ∈ l, ¬ c = '"') :
    matcherD ('"' :: l) = none := by
  rw [matcherD, if_pos rfl, splitAtQuote_not_mem l h]

theorem matcherE_q1 (k rest : List Char) (hk : ∀ c ∈ k, ¬ c = '"') :
    matcherE ('"' :: (k ++ '"' :: (':' :: rest))) = none := by
  cases k with
  | nil =>
    rw [matcherE, if_pos rfl, splitAtQuote_append [] _ hk]
  | cons c0 content =>
    rw [matcherE, if_pos rfl, splitAtQuote_append _ _ hk]
    simp

theorem matcherE_no_quote (l : List Char) (h : ∀ c ∈ l, ¬ c = '"') :
    matcherE ('"' :: l) = none := by
  rw [matcherE, if_pos rfl, splitAtQuote_not_mem l h]

theorem matcherF_q1 (k rest : List Char) (hk : ∀ c ∈ k, ¬ c = '"') :
    matcherF ('"' :: (k ++ '"' :: (':' :: rest))) = none := by
  cases k with
  | nil =>
    rw [matcherF, if_pos rfl, splitAtQuote_append [] _ hk]
  | cons c0 content =>
    rw [matcherF, if_pos rfl, splitAtQuote_append _ _ hk]
    simp

theorem matcherF_no_quote (l : List Char) (h : ∀ c ∈ l, ¬ c = '"') :
    matcherF ('"' :: l) = none := by
  rw [matcherF, if_pos rfl, splitAtQuote_not_mem l h]

theorem digit_facts (c : Char) (h : c.isDigit = true) :
    ¬ c = '"' ∧ ¬ c = backtick ∧ ¬ c = ',' := by
  refine ⟨?_, ?_, ?_⟩ <;> rintro rfl <;> exact absurd h (by decide)

/-! ### The cleanup is the identity on minified single-key objects -/

theorem noMatchP_objText_fence (t : RTag) (hd : t = .ta ∨ t = .tb)
    (k ds : List Char)
    (hk : ∀ c ∈ k, ¬ c = backtick) (hds : ∀ c ∈ ds, c.isDigit = true) :
    NoMatchP t (objText k ds) := by
  have hnone : ∀ c, ¬ c = backtick → ∀ cs, matcherOf t (c :: cs) = none := by
    intro c hc cs
    rcases hd with rfl | rfl
    · simp only [matcherOf]
      exact matcherA_head_none c cs hc
    · simp only [matcherOf]
      exact matcherB_head_none c cs hc
  refine noMatchP_of_all t _ ?_
  intro c hc
  simp only [objText, List.mem_cons, List.mem_append, List.mem_singleton, List.mem_nil_iff, or_false] at hc
  rcases hc with rfl | rfl | hc | rfl | rfl | hc | rfl
  · exact hnone _ (by decide)
  · exact hnone _ (by decide)
  · exact hnone _ (hk c hc)
  · exact hnone _ (by decide)
  · exact hnone _ (by decide)
  · exact hnone _ (digit_facts c (hds c hc)).2.1
  · exact hnone _ (by decide)

theorem noMatchP_objText_G (k ds : List Char)
    (hk : ∀ c ∈ k, ¬ c = ',') (hds : ∀ c ∈ ds, c.isDigit = true) :
    NoMatchP .tg (objText k ds) := by
  refine noMatchP_of_all _ _ ?_
  intro c hc
  simp only [objText, List.mem_cons, List.mem_append, List.mem_singleton, List.mem_nil_iff, or_false] at hc
  simp only [matcherOf]
  rcases hc with rfl | rfl | hc | rfl | rfl | hc | rfl
  · exact fun cs => matcherG_head_none _ cs (by decide)
  · exact fun cs => matcherG_head_none _ cs (by decide)
  · exact fun cs => matcherG_head_none _ cs (hk c hc)
  · exact fun cs => matcherG_head_none _ cs (by decide)
  · exact fun cs => matcherG_head_none _ cs (by decide)
  · exact fun cs => matcherG_head_none _ cs (digit_facts c (hds c hc)).2.2
  · exact fun cs => matcherG_head_none _ cs (by decide)

theorem noMatchP_objText_quote (t : RTag) (hd : t = .td ∨ t = .te ∨ t = .tf)
    (k ds : List Char)
    (hk : ∀ c ∈ k, ¬ c = '"') (hds : ∀ c ∈ ds, c.isDigit = true) :
    NoMatchP t (objText k ds) := by
  have hheadfail : ∀ c, ¬ c = '"' → ∀ cs, matcherOf t (c :: cs) = none := by
    intro c hc cs
    rcases hd with rfl | rfl | rfl
    · simp only [matcherOf]
      exact matcherD_head_none c cs hc
    · simp only [matcherOf]
      exact matcherE_head_none c cs hc
    · simp only [matcherOf]
      exact matcherF_head_none c cs hc
  have hnq : ∀ c ∈ ':' :: (ds ++ ['}']), ¬ c = '"' := by
    intro c hc
    simp only [List.mem_cons, List.mem_append, List.mem_singleton, List.mem_nil_iff, or_false] at hc
    rcases hc with rfl | hc | rfl
    · decide
    · exact (digit_facts c (hds c hc)).1
    · decide
  have hq1 : matcherOf t ('"' :: (k ++ '"' :: (':' :: (ds ++ ['}'])))) = none := by
    rcases hd with rfl | rfl | rfl
    · simp only [matcherOf]
      exact matcherD_q1 k _ hk
    · simp only [matcherOf]
      exact matcherE_q1 k _ hk
    · simp only [matcherOf]
      exact matcherF_q1 k _ hk
  have hq2 : matcherOf t ('"' :: (':' :: (ds ++ ['}']))) = none := by
    rcases hd with rfl | rfl | rfl
    · simp only [matcherOf]
      exact matcherD_no_quote _ hnq
    · simp only [matcherOf]
      exact matcherE_no_quote _ hnq
    · simp only [matcherOf]
      exact matcherF_no_quote _ hnq
  refine ⟨hheadfail '{' (by decide) _, hq1, ?_⟩
  refine noMatchP_append t k _ (fun c hc cs => hheadfail c (hk c hc) cs) ?_
  refine ⟨hq2, hheadfail ':' (by decide) _, ?_⟩
  refine noMatchP_append t ds _
    (fun c hc cs => hheadfail c (digit_facts c (hds c hc)).1 cs) ?_
  exact ⟨hheadfail '}' (by decide) _, trivial⟩

/-- C3 (amended): the cleanup steps are the identity on minified single-key
JSON object texts `{"k":d}` whose key avoids the double quote, backtick and
comma characters and whose value is a digit string. -/
theorem claim_C3_amended (k ds : List Char)
    (hk : ∀ c ∈ k, ¬ c = '"' ∧ ¬ c = backtick ∧ ¬ c = ',')
    (hds : ∀ c ∈ ds, c.isDigit = true) :
    cleanup (String.mk (objText k ds)) = String.mk (objText k ds) := by
  have hshape : objText k ds = '{' :: (('"' :: (k ++ ('"' :: ':' :: ds))) ++ ['}']) := by
    simp [objText]
  have hA : runRepl .ta (objText k ds) = objText k ds :=
    runRepl_id _ _ (noMatchP_objText_fence .ta (Or.inl rfl) k ds
      (fun c hc => (hk c hc).2.1) hds)
  have hB : runRepl .tb (objText k ds) = objText k ds :=
    runRepl_id _ _ (noMatchP_objText_fence .tb (Or.inr rfl) k ds
      (fun c hc => (hk c hc).2.1) hds)
  have hC : extractBraces (objText k ds) = objText k ds := by
    rw [hshape]
    exact extractBraces_full _
  have hD : runRepl .td (objText k ds) = objText k ds :=
    runRepl_id _ _ (noMatchP_objText_quote .td (Or.inl rfl) k ds
      (fun c hc => (hk c hc).1) hds)
  have hE : runRepl .te (objText k ds) = objText k ds :=
    runRepl_id _ _ (noMatchP_objText_quote .te (Or.inr (Or.inl rfl)) k ds
      (fun c hc => (hk c hc).1) hds)
  have hF : runRepl .tf (objText k ds) = objText k ds :=
    runRepl_id _ _ (noMatchP_objText_quote .tf (Or.inr (Or.inr rfl)) k ds
      (fun c hc => (hk c hc).1) hds)
  have hG : runRepl .tg (objText k ds) = objText k ds :=
    runRepl_id _ _ (noMatchP_objText_G k ds (fun c hc => (hk c hc).2.2) hds)
  show String.mk (runRepl .tg (String.mk (runRepl .tf (runRepl .te (runRepl .td
    (extractBraces (runRepl .tb (runRepl .ta (objText k ds)))))))).data) = _
  rw [hA, hB, hC, hD, hE, hF]
  show String.mk (runRepl .tg (objText k ds)) = _
  rw [hG]

/-- Witness for C3 (amended) on the concrete text `{"a":1}`. -/
theorem claim_C3_witness : cleanup (String.mk (objText ['a'] ['1'])) =
    String.mk (objText ['a'] ['1']) :=
  claim_C3_amended ['a'] ['1'] (by decide) (by decide)

/-- C3 counterexample: `{"a":"b"}` is valid JSON (the embedded
`JSON.parse` accepts it) with no whitespace, yet the cleanup steps rewrite
it to `{"a":"}` — the interleaved-text regex treats the text between the
key's closing quote and the value's opening quote as a quoted span. -/
theorem claim_C3_counterexample :
    (jsonParse "\x7b\"a\":\"b\"\x7d").isSome = true ∧
    ("\x7b\"a\":\"b\"\x7d").data.all (fun c => !(jsonWs c)) = true ∧
    cleanup "\x7b\"a\":\"b\"\x7d" = "\x7b\"a\":\"\x7d" ∧
    cleanup "\x7b\"a\":\"b\"\x7d" ≠ "\x7b\"a\":\"b\"\x7d" := by
  exact ⟨by decide, by decide, by decide, by decide⟩

/-! ### Claim C7: the two concrete repair examples -/

/-- C7: the full cleanup maps `{"a": 1,}` to `{"a": 1}`, and the
transformation sequence up to (but not including) the trailing-comma pass
maps `"totalEstimatedCalories",}` to `"totalEstimatedCalories": 0,}`. -/
theorem claim_C7 :
    cleanup "\x7b\"a\": 1,\x7d" = "\x7b\"a\": 1\x7d" ∧
    cleanupPreTrailing "\"totalEstimatedCalories\",\x7d" = "\"totalEstimatedCalories\": 0,\x7d" := by
  exact ⟨by decide, by decide⟩

/-! ### Claim C6: the Image Gate -/

/-- C6: `validateFoodImage` answers `true` exactly when the raw reply,
trimmed and lower-cased, equals the literal "true"; a thrown gate call
fails open to `true`. -/
theorem claim_C6 :
    (∀ t : String, validateFoodImage (.ok t) = true ↔ jsLower (jsTrim t) = "true") ∧
    validateFoodImage .err = true := by
  constructor
  · intro t
    simp [validateFoodImage]
  · rfl

/-! ### Claim C8: a failed gate short-circuits the run -/

/-- C8: when the key is present and the gate answers `false`, the run
returns exactly the fixed "not a food photo" error result after a single
model call — no sampling call is made. -/
theorem claim_C8 (env : Env) (hkey : env.hasKey = true)
    (hgate : validateFoodImage (env.model 0) = false) :
    getCalorieBreakdown env = (notFoodResult, 1) ∧
    notFoodResult.error = some "The uploaded image does not appear to be a food or meal photo. Please upload an image of your meal." ∧
    notFoodResult.totalEstimatedCalories = some 0 ∧
    notFoodResult.items = some [] := by
  refine ⟨?_, rfl, rfl, rfl⟩
  have h1 : toCBR notFoodJv = notFoodResult := by decide
  simp [getCalorieBreakdown, getCalorieBreakdownRaw, hkey, hgate, h1]

/-- Witness for C8: a gate reply "false" with the key present. -/
theorem claim_C8_witness :
    getCalorieBreakdown envNotFood = (notFoodResult, 1) ∧
    notFoodResult.error = some "The uploaded image does not appear to be a food or meal photo. Please upload an image of your meal." ∧
    notFoodResult.totalEstimatedCalories = some 0 ∧
    notFoodResult.items = some [] :=
  claim_C8 envNotFood rfl (by decide)

/-! ### Claim C5: per-sample failure isolation and the all-failed shape -/

/-- C5: with the key present and the gate passing, a run in which no sample
survives the loop — every analysis attempt threw, failed the repair step,
or parsed to a falsy value that the push site's `if (processedResponse)`
drops — returns (does not throw) exactly the fixed "failed after multiple
attempts" result; a run with at least one surviving sample proceeds to the
consensus step on exactly the surviving samples, so an individual failed
call only drops its own sample. -/
theorem claim_C5 (env : Env) (hkey : env.hasKey = true)
    (hgate : validateFoodImage (env.model 0) = true) :
    (analysisSamples env = [] →
      getCalorieBreakdownRaw env = (.ok allFailedJv, analysisCallsEnd env) ∧
      getCalorieBreakdown env = (allFailedResult, analysisCallsEnd env) ∧
      allFailedResult.error = some "Failed to get any valid calorie breakdown from AI after multiple attempts." ∧
      allFailedResult.totalEstimatedCalories = some 0 ∧
      allFailedResult.items = some []) ∧
    (analysisSamples env ≠ [] →
      getCalorieBreakdownRaw env =
        findConsensusResultD env (analysisCallsEnd env) (analysisSamples env)) := by
  have hg' : ¬ validateFoodImage (env.model 0) = false := by
    rw [hgate]; exact fun h => nomatch h
  constructor
  · intro hs
    simp only [analysisSamples] at hs
    have htc : toCBR allFailedJv = allFailedResult := by decide
    refine ⟨?_, ?_, rfl, rfl, rfl⟩
    · simp [getCalorieBreakdownRaw, hkey, hg', hs, analysisCallsEnd]
    · simp [getCalorieBreakdown, getCalorieBreakdownRaw, hkey, hg', hs, analysisCallsEnd, htc]
  · intro hs
    simp only [analysisSamples] at hs
    simp [getCalorieBreakdownRaw, hkey, hg', hs, analysisSamples, analysisCallsEnd]

/-- Witness for C5 at the zero-success boundary: every analysis reply is the
literal "null", which parses successfully but is falsy, so the push site
discards all five samples and the run ends in the fixed error result. -/
theorem claim_C5_witness :
    analysisSamples envAllNull = [] ∧
    getCalorieBreakdownRaw envAllNull = (.ok allFailedJv, analysisCallsEnd envAllNull) ∧
    getCalorieBreakdown envAllNull = (allFailedResult, analysisCallsEnd envAllNull) := by
  have h := (claim_C5 envAllNull rfl (by decide)).1 rfl
  exact ⟨rfl, h.1, h.2.1⟩

/-! ### Claim C9: the pipeline claims never to propagate an exception -/

/-- C9 (refuting the claim, a code bug): the claim says `getCalorieBreakdown`
never propagates an exception for any behaviour of the model collaborator.
Under `envC9` — gate "true", analysis replies "5" at calls 1 and 3, every
other call throwing — the two primitive samples `5` are truthy, so the push
site keeps them; the consensus merge call throws, the deterministic
fallback runs, and its assignment
`consensusResult.assumptionsMade = ...` on the primitive winner `5` is a
strict-mode TypeError; because line 175 calls
`findConsensusResult(analysisResults)` WITHOUT `await` and returns the
promise, that rejection bypasses the top-level try/catch and reaches the
caller: the run ends in the uncaught `.error` outcome after 9 model calls
instead of a structured error result. -/
theorem claim_C9 :
    analysisSamples envC9 = [Jv.num 5, Jv.num 5] ∧
    getCalorieBreakdownRaw envC9 = (Except.error (), 9) :=
  ⟨rfl, rfl⟩

/-! ### Claim C4: `error` unset does not imply `items` defined -/

theorem headD_mem (l : List Jv) (hne : l ≠ []) : l.headD Jv.null ∈ l := by
  cases l with
  | nil => exact absurd rfl hne
  | cons v rest => exact List.mem_cons_self _ _

theorem runAnalyses_sound (env : Env)
    (H : ∀ n text, env.model n = .ok text →
      ∀ r n', processGeminiResponse env (n + 1) text = (some r, n') →
        r.error = none ∧ r.items ≠ none) :
    ∀ (k n : Nat), ∀ v ∈ (runAnalyses env k n).1,
      (toCBR v).error = none ∧ (toCBR v).items ≠ none := by
  intro k
  induction k with
  | zero => intro n v hv; exact absurd hv (List.not_mem_nil v)
  | succ k ih =>
    intro n v hv
    rw [runAnalyses] at hv
    cases hm : env.model n with
    | err =>
      rw [hm] at hv
      exact ih (n + 1) v hv
    | ok text =>
      rw [hm] at hv
      dsimp only at hv
      cases hp : processGeminiResponseRaw env (n + 1) text with
      | mk o n' =>
        cases o with
        | some v0 =>
          rw [hp] at hv
          dsimp only at hv
          by_cases ht : jvTruthy v0 = true
          · rw [if_pos ht] at hv
            dsimp only at hv
            rcases List.mem_cons.1 hv with rfl | hv'
            · exact H n text hm (toCBR v) n' (by simp [processGeminiResponse, hp])
            · exact ih n' v hv'
          · rw [if_neg ht] at hv
            exact ih n' v hv
        | none =>
          rw [hp] at hv
          dsimp only at hv
          exact ih n' v hv

theorem toCBR_schema_obj (v : Jv) (hitems : (toCBR v).items ≠ none) :
    ∃ fs, v = .obj fs ∧ ∃ xs, getField fs "items" = some (.arr xs) := by
  cases v with
  | null => exact absurd rfl hitems
  | bool b => exact absurd rfl hitems
  | num q => exact absurd rfl hitems
  | str s => exact absurd rfl hitems
  | arr xs => exact absurd rfl hitems
  | obj fs =>
    refine ⟨fs, rfl, ?_⟩
    simp only [toCBR] at hitems
    match hg : getField fs "items" with
    | some (.arr xs) => exact ⟨xs, rfl⟩
    | none => rw [hg] at hitems; exact absurd rfl hitems
    | some .null => rw [hg] at hitems; exact absurd rfl hitems
    | some (.bool b) => rw [hg] at hitems; exact absurd rfl hitems
    | some (.num q) => rw [hg] at hitems; exact absurd rfl hitems
    | some (.str s) => rw [hg] at hitems; exact absurd rfl hitems
    | some (.obj fs') => rw [hg] at hitems; exact absurd rfl hitems

theorem resultKeyD_obj_arr (fs : List (String × Jv)) (xs : List Jv)
    (hxs : getField fs "items" = some (.arr xs)) :
    resultKeyD (.obj fs) =
      .ok (renderSig (getField fs "mealDescription") (getField fs "totalEstimatedCalories")
        (some (xs.map (fun it => (jvGetProp it "itemName", jvGetProp it "calories"))))) := by
  unfold resultKeyD
  simp only [jvGetProp]
  rw [hxs]

theorem resultKeyD_ok_of_schema (v : Jv) (hitems : (toCBR v).items ≠ none) :
    ∃ s, resultKeyD v = .ok s := by
  obtain ⟨fs, hvfs, xs, hxs⟩ := toCBR_schema_obj v hitems
  subst hvfs
  exact ⟨_, resultKeyD_obj_arr fs xs hxs⟩

theorem bumpCountD_mem (acc : List (String × Nat × Jv)) (key : String) (v : Jv)
    (e : String × Nat × Jv) (he : e ∈ bumpCountD acc key v) :
    (∃ e' ∈ acc, e.2.2 = e'.2.2) ∨ e.2.2 = v := by
  induction acc with
  | nil =>
    simp only [bumpCountD, List.mem_singleton] at he
    exact Or.inr (by rw [he])
  | cons e0 rest ih =>
    obtain ⟨s, c, w⟩ := e0
    by_cases hs : key = s
    · rw [bumpCountD, if_pos hs] at he
      rcases List.mem_cons.1 he with he | he
      · exact Or.inl ⟨(s, c, w), List.mem_cons_self _ _, by rw [he]⟩
      · exact Or.inl ⟨e, List.mem_cons_of_mem _ he, rfl⟩
    · rw [bumpCountD, if_neg hs] at he
      rcases List.mem_cons.1 he with he | he
      · exact Or.inl ⟨(s, c, w), List.mem_cons_self _ _, by rw [he]⟩
      · rcases ih he with ⟨e', he', heq⟩ | heq
        · exact Or.inl ⟨e', List.mem_cons_of_mem _ he', heq⟩
        · exact Or.inr heq

theorem buildCountsD_ok (results : List Jv) :
    ∀ (acc : List (String × Nat × Jv)),
      (∀ v ∈ results, ∃ s, resultKeyD v = .ok s) →
      ∃ counts, buildCountsD results acc = .ok counts ∧
        ∀ e ∈ counts, (∃ e' ∈ acc, e.2.2 = e'.2.2) ∨ e.2.2 ∈ results := by
  induction results with
  | nil =>
    intro acc _
    exact ⟨acc, rfl, fun e he => Or.inl ⟨e, he, rfl⟩⟩
  | cons v rest ih =>
    intro acc hkeys
    obtain ⟨s, hs⟩ := hkeys v (List.mem_cons_self _ _)
    obtain ⟨counts, hc, hmem⟩ := ih (bumpCountD acc s v)
      (fun v' hv' => hkeys v' (List.mem_cons_of_mem _ hv'))
    refine ⟨counts, ?_, ?_⟩
    · rw [buildCountsD, hs]
      exact hc
    · intro e he
      rcases hmem e he with ⟨e', he', heq⟩ | hin
      · rcases bumpCountD_mem acc s v e' he' with ⟨e'', he'', heq'⟩ | heq'
        · exact Or.inl ⟨e'', he'', heq.trans heq'⟩
        · exact Or.inr (by rw [heq, heq']; exact List.mem_cons_self _ _)
      · exact Or.inr (List.mem_cons_of_mem _ hin)

theorem pickMaxD_mem (entries : List (String × Nat × Jv)) :
    ∀ (acc : Nat × Jv),
      (pickMaxD entries acc).2 = acc.2 ∨ ∃ e ∈ entries, (pickMaxD entries acc).2 = e.2.2 := by
  induction entries with
  | nil => intro acc; exact Or.inl rfl
  | cons e rest ih =>
    intro acc
    obtain ⟨s, c, w⟩ := e
    rw [pickMaxD]
    by_cases hc : c > acc.1
    · rw [if_pos hc]
      rcases ih (c, w) with h | ⟨e', he', h⟩
      · exact Or.inr ⟨(s, c, w), List.mem_cons_self _ _, h⟩
      · exact Or.inr ⟨e', List.mem_cons_of_mem _ he', h⟩
    · rw [if_neg hc]
      rcases ih acc with h | ⟨e', he', h⟩
      · exact Or.inl h
      · exact Or.inr ⟨e', List.mem_cons_of_mem _ he', h⟩

theorem pickConfD_mem (l : List Jv) :
    ∀ (acc : Rat × Jv), (pickConfD l acc).2 = acc.2 ∨ (pickConfD l acc).2 ∈ l := by
  induction l with
  | nil => intro acc; exact Or.inl rfl
  | cons v rest ih =>
    intro acc
    rw [pickConfD]
    by_cases hc : jvConf v > acc.1
    · rw [if_pos hc]
      rcases ih (jvConf v, v) with h | h
      · exact Or.inr (by rw [h]; exact List.mem_cons_self _ _)
      · exact Or.inr (List.mem_cons_of_mem _ h)
    · rw [if_neg hc]
      rcases ih acc with h | h
      · exact Or.inl h
      · exact Or.inr (List.mem_cons_of_mem _ h)

theorem fallbackD_winner (results : List Jv) (hne : results ≠ [])
    (hkeys : ∀ v ∈ results, ∃ s, resultKeyD v = .ok s) :
    ∃ w ∈ results, ∃ k,
      findConsensusResultFallbackD results = jvAddNoteD w k results.length := by
  obtain ⟨counts, hc, hmem⟩ := buildCountsD_ok results [] hkeys
  have hconv : ∀ e ∈ counts, e.2.2 ∈ results := by
    intro e he
    rcases hmem e he with ⟨e', he', _⟩ | h
    · exact absurd he' (List.not_mem_nil e')
    · exact h
  have hfb : findConsensusResultFallbackD results =
      jvAddNoteD
        (if (pickMaxD counts (0, results.headD Jv.null)).1 = 1
          then (pickConfD results (0, (pickMaxD counts (0, results.headD Jv.null)).2)).2
          else (pickMaxD counts (0, results.headD Jv.null)).2)
        (pickMaxD counts (0, results.headD Jv.null)).1 results.length := by
    unfold findConsensusResultFallbackD
    rw [hc]
  have hm2 : (pickMaxD counts (0, results.headD Jv.null)).2 ∈ results := by
    rcases pickMaxD_mem counts (0, results.headD Jv.null) with heq | ⟨e, he, heq⟩
    · rw [heq]; exact headD_mem results hne
    · rw [heq]; exact hconv e he
  by_cases h1 : (pickMaxD counts (0, results.headD Jv.null)).1 = 1
  · rcases pickConfD_mem results (0, (pickMaxD counts (0, results.headD Jv.null)).2)
      with heq | hmem'
    · refine ⟨(pickMaxD counts (0, results.headD Jv.null)).2, hm2,
        (pickMaxD counts (0, results.headD Jv.null)).1, ?_⟩
      rw [hfb, if_pos h1, heq]
    · refine ⟨(pickConfD results (0, (pickMaxD counts (0, results.headD Jv.null)).2)).2,
        hmem', (pickMaxD counts (0, results.headD Jv.null)).1, ?_⟩
      rw [hfb, if_pos h1]
  · refine ⟨(pickMaxD counts (0, results.headD Jv.null)).2, hm2,
      (pickMaxD counts (0, results.headD Jv.null)).1, ?_⟩
    rw [hfb, if_neg h1]

theorem getField_append_ne (fs : List (String × Jv)) (key key' : String) (v : Jv)
    (h : ¬ key = key') :
    getField (fs ++ [(key, v)]) key' = getField fs key' := by
  unfold getField
  rw [List.filter_append]
  simp [h]

theorem getField_map_set_ne (fs : List (String × Jv)) (key key' : String) (v : Jv)
    (h : ¬ key = key') :
    getField (fs.map (fun p => if p.1 = key then (key, v) else p)) key' =
      getField fs key' := by
  unfold getField
  have hfil : (fs.map (fun p => if p.1 = key then (key, v) else p)).filter
      (fun p => p.1 = key') = fs.filter (fun p => p.1 = key') := by
    induction fs with
    | nil => rfl
    | cons p fs' ih =>
      obtain ⟨pk, pv⟩ := p
      by_cases hpk : pk = key
      · subst hpk
        simp [List.filter_cons, h, ih]
      · by_cases hpk' : pk = key'
        · have hkk : ¬ key' = key := fun hh => h hh.symm
          simp [List.filter_cons, hpk, hpk', hkk, ih]
        · simp [List.filter_cons, hpk, hpk', ih]
  rw [hfil]

theorem jvSetProp_getField_ne (fs : List (String × Jv)) (key key' : String) (v : Jv)
    (h : ¬ key = key') :
    getField (jvSetProp fs key v) key' = getField fs key' := by
  unfold jvSetProp
  by_cases hall : fs.all (fun p => !(p.1 == key)) = true
  · rw [if_pos hall]
    exact getField_append_ne fs key key' v h
  · rw [if_neg hall]
    exact getField_map_set_ne fs key key' v h

theorem toCBR_assign_error (fs : List (String × Jv)) (v : Jv) :
    (toCBR (.obj (jvSetProp fs "assumptionsMade" v))).error = (toCBR (.obj fs)).error := by
  simp only [toCBR]
  rw [jvSetProp_getField_ne fs "assumptionsMade" "error" v (by decide)]

theorem toCBR_assign_items (fs : List (String × Jv)) (v : Jv) :
    (toCBR (.obj (jvSetProp fs "assumptionsMade" v))).items = (toCBR (.obj fs)).items := by
  simp only [toCBR]
  rw [jvSetProp_getField_ne fs "assumptionsMade" "items" v (by decide)]

theorem jvAddNoteD_obj (fs : List (String × Jv)) (k n : Nat) :
    jvAddNoteD (.obj fs) k n = .ok (.obj (jvSetProp fs "assumptionsMade"
      (.str (jsTrim (jvTemplate (getField fs "assumptionsMade") ++ consensusNote k n))))) :=
  rfl

theorem jvAssignAssumptions_obj (fs : List (String × Jv)) (note : String) :
    jvAssignAssumptions (.obj fs) note = .ok (.obj (jvSetProp fs "assumptionsMade"
      (.str (jsTrim (jvTemplate (getField fs "assumptionsMade") ++ note))))) :=
  rfl

theorem fallbackD_schema (samples : List Jv) (hne : samples ≠ [])
    (hs : ∀ v ∈ samples, (toCBR v).error = none ∧ (toCBR v).items ≠ none) :
    ∃ v', findConsensusResultFallbackD samples = .ok v' ∧
      (toCBR v').error = none ∧ (toCBR v').items ≠ none := by
  obtain ⟨w, hw, k, heq⟩ := fallbackD_winner samples hne
    (fun v hv => resultKeyD_ok_of_schema v (hs v hv).2)
  obtain ⟨fs, hwfs, xs, hxs⟩ := toCBR_schema_obj w (hs w hw).2
  subst hwfs
  rw [heq, jvAddNoteD_obj]
  refine ⟨_, rfl, ?_, ?_⟩
  · rw [toCBR_assign_error]
    exact (hs _ hw).1
  · rw [toCBR_assign_items]
    exact (hs _ hw).2

theorem findConsensusResultD_schema (env : Env)
    (H : ∀ n text, env.model n = .ok text →
      ∀ r n', processGeminiResponse env (n + 1) text = (some r, n') →
        r.error = none ∧ r.items ≠ none)
    (samples : List Jv) (hne : samples ≠ [])
    (hs : ∀ v ∈ samples, (toCBR v).error = none ∧ (toCBR v).items ≠ none) (n : Nat) :
    ∃ v', (findConsensusResultD env n samples).1 = .ok v' ∧
      (toCBR v').error = none ∧ (toCBR v').items ≠ none := by
  unfold findConsensusResultD
  by_cases h1 : samples.length = 1
  · rw [if_pos h1]
    exact ⟨samples.headD Jv.null, rfl,
      (hs _ (headD_mem samples hne)).1, (hs _ (headD_mem samples hne)).2⟩
  · rw [if_neg h1]
    by_cases h2 : env.hasKey = false
    · rw [if_pos h2]
      exact fallbackD_schema samples hne hs
    · rw [if_neg h2]
      unfold findConsensusResultWithModelD
      cases hm : env.model n with
      | err =>
        exact fallbackD_schema samples hne hs
      | ok text =>
        dsimp only
        cases hp : processGeminiResponseRaw env (n + 1) text with
        | mk o n' =>
          cases o with
          | some v =>
            have hv := H n text hm (toCBR v) n' (by simp [processGeminiResponse, hp])
            obtain ⟨fs, hvfs, xs, hxs⟩ := toCBR_schema_obj v hv.2
            subst hvfs
            dsimp only
            rw [if_pos (show jvTruthy (Jv.obj fs) = true from rfl)]
            rw [jvAssignAssumptions_obj]
            refine ⟨_, rfl, ?_, ?_⟩
            · rw [toCBR_assign_error]
              exact hv.1
            · rw [toCBR_assign_items]
              exact hv.2
          | none =>
            dsimp only
            exact fallbackD_schema samples hne hs

/-- C4 (amended): the success-path guarantee holds only conditionally — if
every candidate `processGeminiResponse` produces under the run's model
behaviour has `error` undefined and `items` defined, then a returned result
with `error` undefined has `items` defined. (Unconditionally the code gives
no such guarantee: a parsed reply `{}` yields a success result whose
`items` is undefined.) -/
theorem claim_C4_amended (env : Env)
    (H : ∀ n text, env.model n = .ok text →
      ∀ r n', processGeminiResponse env (n + 1) text = (some r, n') →
        r.error = none ∧ r.items ≠ none)
    (herr : (getCalorieBreakdown env).1.error = none) :
    (getCalorieBreakdown env).1.items ≠ none := by
  by_cases hk : env.hasKey = false
  · have hgc : getCalorieBreakdown env = (toCBR genericErrorJv, 0) := by
      simp [getCalorieBreakdown, getCalorieBreakdownRaw, hk]
    rw [hgc] at herr
    exact absurd herr (by decide)
  · by_cases hg : validateFoodImage (env.model 0) = false
    · have hgc : getCalorieBreakdown env = (toCBR notFoodJv, 1) := by
        simp [getCalorieBreakdown, getCalorieBreakdownRaw, hk, hg]
      rw [hgc] at herr
      exact absurd herr (by decide)
    · by_cases hsmp : (runAnalyses env 5 1).1 = []
      · have hgc : getCalorieBreakdown env =
            (toCBR allFailedJv, (runAnalyses env 5 1).2) := by
          simp [getCalorieBreakdown, getCalorieBreakdownRaw, hk, hg, hsmp]
        rw [hgc] at herr
        have hne : (toCBR allFailedJv).error ≠ none := by decide
        exact absurd herr hne
      · have hraw : getCalorieBreakdownRaw env =
            ((findConsensusResultD env (runAnalyses env 5 1).2 (runAnalyses env 5 1).1).1,
             (findConsensusResultD env (runAnalyses env 5 1).2 (runAnalyses env 5 1).1).2) := by
          simp [getCalorieBreakdownRaw, hk, hg, hsmp]
        obtain ⟨v', hok, herr', hit⟩ := findConsensusResultD_schema env H
          (runAnalyses env 5 1).1 hsmp
          (fun v hv => runAnalyses_sound env H 5 1 v hv) (runAnalyses env 5 1).2
        have hgc : getCalorieBreakdown env =
            (toCBR v',
             (findConsensusResultD env (runAnalyses env 5 1).2 (runAnalyses env 5 1).1).2) := by
          unfold getCalorieBreakdown
          rw [hraw, hok]
        rw [hgc]
        exact hit

/-- C4 counterexample: the gate passes, the one surviving analysis reply is
`{}`; the run returns via the success path with `error` undefined yet
`items` undefined — refuting the claim that a successful run always has
`items` defined. -/
theorem claim_C4_counterexample :
    (getCalorieBreakdown envC4).1.error = none ∧
    (getCalorieBreakdown envC4).1.items = none := by
  exact ⟨by decide, by decide⟩

/-- Witness for C4 (amended) under a schema-conforming model behaviour. -/
theorem claim_C4_witness : (getCalorieBreakdown envW4).1.items ≠ none := by
  refine claim_C4_amended envW4 ?_ (by decide)
  intro n text hm r n' hp
  match n, hm with
  | 0, hm =>
    have htext : text = "true" := by
      injection hm with h
      exact h.symm
    subst htext
    have hcomp : processGeminiResponse envW4 (0 + 1) "true" =
        (some { mealDescription := none, totalEstimatedCalories := none, items := some [],
                confidenceScore := none, assumptionsMade := none, error := none }, 2) := by
      decide
    rw [hcomp] at hp
    simp only [Prod.mk.injEq, Option.some.injEq] at hp
    rw [← hp.1]
    exact ⟨rfl, by simp⟩
  | 1, hm =>
    have htext : text = "\x7b\"items\":[]\x7d" := by
      injection hm with h
      exact h.symm
    subst htext
    have hcomp : processGeminiResponse envW4 (1 + 1) "\x7b\"items\":[]\x7d" =
        (some { mealDescription := none, totalEstimatedCalories := none, items := some [],
                confidenceScore := none, assumptionsMade := none, error := none }, 3) := by
      decide
    rw [hcomp] at hp
    simp only [Prod.mk.injEq, Option.some.injEq] at hp
    rw [← hp.1]
    exact ⟨rfl, by simp⟩
